import Mathlib

/-!
Verification development for the COMMBUYS CLI client (src/cli/commbuys.py).

The source is a Python program whose core is (a) a regex-driven extraction
layer over HTML/XML text and (b) a three-step PrimeFaces AJAX conversation
(fetch page / reset / search) driven over an HTTP transport.

We shallowly embed the program over `List Char`.  Every regular expression
used by the source applies quantifiers only to single-character classes
(for example [^>]*, [^"']+, \s*, lazy (.*?)), so the embedding implements
each pattern as an explicit matcher built from combinators with Python
`re` semantics:
  - greedy class-star/plus with backtracking (longest first),
  - lazy class-star (shortest first), also in a capturing variant,
  - leftmost search (`re.search`) and leftmost non-overlapping `re.findall`.
Matchers are written in continuation-passing style so that backtracking of
an earlier quantifier correctly retries the whole remainder of the pattern.

HTTP is abstracted by oracles: a response per attempt for the retry loop,
and a page value plus a response-per-POST-body function for the AJAX
orchestration.  Python dicts are embedded as insertion-ordered association
lists with overwrite-in-place assignment, matching dict semantics.
-/

set_option maxRecDepth 16384

namespace Commbuys

/-- Characters of a Python `str`, embedded as a list of characters. -/
abbrev LC := List Char

/-- Characters of a Lean string literal. -/
def lcOf (s : String) : LC := s.data

/-- The double-quote character. -/
def dq : Char := Char.ofNat 34

/-- The single-quote character. -/
def sq : Char := Char.ofNat 39

/-- The opening-brace character. -/
def obr : Char := Char.ofNat 123

/-- The closing-brace character. -/
def cbr : Char := Char.ofNat 125

/-- Python regex `\s` / `str.strip` whitespace, restricted to the characters
that can realistically occur here (ASCII whitespace plus NBSP, which
`html.unescape` can produce from a non-breaking-space entity). -/
def isPySpace (c : Char) : Bool :=
  c == ' ' || c == '\t' || c == '\n' || c == '\r' ||
  c == Char.ofNat 11 || c == Char.ofNat 12 || c == Char.ofNat 160

/-- Python regex `\d`, restricted to ASCII digits. -/
def isDigitC (c : Char) : Bool := c.isDigit

/-- Python `str.lower`, restricted to ASCII case mapping. -/
def toLowerL (s : LC) : LC := s.map Char.toLower

/-- Python `str.strip()`. -/
def stripWS (s : LC) : LC :=
  ((s.dropWhile isPySpace).reverse.dropWhile isPySpace).reverse

/-- Python `needle in hay` substring test. -/
def isSubstr (needle hay : LC) : Bool :=
  hay.tails.any (fun t => needle.isPrefixOf t)

/-- Case-insensitive "starts with", used in statements about occurrences. -/
def ciStartsWith (needle s : LC) : Bool :=
  (toLowerL needle).isPrefixOf (toLowerL s)

/-- Case-insensitive substring occurrence. -/
def occursCI (needle hay : LC) : Bool :=
  hay.tails.any (fun t => ciStartsWith needle t)

/-- Match a literal, returning the rest of the input. -/
def mLit : LC → LC → Option LC
  | [], s => some s
  | _ :: _, [] => none
  | a :: l, c :: s => if c = a then mLit l s else none

/-- Match a literal case-insensitively (regex IGNORECASE). -/
def mLitCI : LC → LC → Option LC
  | [], s => some s
  | _ :: _, [] => none
  | a :: l, c :: s => if c.toLower = a.toLower then mLitCI l s else none

/-- Match a single character. -/
def mChar (a : Char) : LC → Option LC
  | [] => none
  | c :: s => if c = a then some s else none

/-- Match the regex class `["']`. -/
def mQuote : LC → Option LC
  | [] => none
  | c :: s => if c = dq || c = sq then some s else none

/-- Predicate for characters that are not a quote of either kind. -/
def notQuote (c : Char) : Bool := !(c = dq || c = sq)

/-- Backtracking worker for a greedy class-star: try the continuation after
consuming `j` class characters, for `j` from the given bound down to `0`. -/
def btGo (k : LC → Option α) (s : LC) : Nat → Option α
  | 0 => k s
  | j + 1 =>
    match k (s.drop (j + 1)) with
    | some a => some a
    | none => btGo k s j

/-- Greedy `class*` followed by the continuation `k`, Python semantics:
longest consumption first, backtracking on failure. -/
def btStar (p : Char → Bool) (k : LC → Option α) (s : LC) : Option α :=
  btGo k s (s.takeWhile p).length

/-- Greedy `class+` followed by the continuation `k`. -/
def btPlus (p : Char → Bool) (k : LC → Option α) : LC → Option α
  | [] => none
  | c :: t => if p c then btStar p k t else none

/-- Backtracking worker for capturing greedy quantifiers: the continuation
receives the captured characters and the rest. -/
def btCapGo (k : LC → LC → Option α) (s : LC) : Nat → Option α
  | 0 => k [] s
  | j + 1 =>
    match k (s.take (j + 1)) (s.drop (j + 1)) with
    | some a => some a
    | none => btCapGo k s j

/-- Capturing greedy `(class*)` followed by the continuation. -/
def btCapStar (p : Char → Bool) (k : LC → LC → Option α) (s : LC) : Option α :=
  btCapGo k s (s.takeWhile p).length

/-- Capturing greedy `(class+)` followed by the continuation. -/
def btCapPlus (p : Char → Bool) (k : LC → LC → Option α) : LC → Option α
  | [] => none
  | c :: t =>
    if p c then btCapGo (fun cap rest => k (c :: cap) rest) t (t.takeWhile p).length
    else none

/-- Capturing greedy `(class+)` at the very end of a pattern: maximal munch. -/
def capPlusMax (p : Char → Bool) (s : LC) : Option LC :=
  let t := s.takeWhile p
  if t.isEmpty then none else some t

/-- Lazy `class*?` followed by the continuation `k`: shortest first. -/
def lzStar (p : Char → Bool) (k : LC → Option α) : LC → Option α
  | [] => k []
  | c :: t =>
    match k (c :: t) with
    | some a => some a
    | none => if p c then lzStar p k t else none

/-- Capturing lazy `(class*?)` followed by the continuation `k`. -/
def lzCap (p : Char → Bool) (k : LC → Option α) : LC → Option (LC × α)
  | [] => (k []).map (fun a => ([], a))
  | c :: t =>
    match k (c :: t) with
    | some a => some ([], a)
    | none =>
      if p c then (lzCap p k t).map (fun r => (c :: r.1, r.2)) else none

/-- Leftmost match: `re.search`, returning the pattern result. -/
def reSearch (m : LC → Option α) : LC → Option α
  | [] => m []
  | c :: t =>
    match m (c :: t) with
    | some a => some a
    | none => reSearch m t

/-- Worker for `re.findall`: scan left to right, emitting each match and
continuing after its end.  All matchers used here consume at least one
character, so fuel `length + 1` suffices to visit every position. -/
def findAllAux (m : LC → Option (α × LC)) : Nat → LC → List α
  | 0, _ => []
  | _ + 1, [] =>
    match m [] with
    | some (a, _) => [a]
    | none => []
  | fuel + 1, c :: t =>
    match m (c :: t) with
    | some (a, rest) => a :: findAllAux m fuel rest
    | none => findAllAux m fuel t

/-- Leftmost non-overlapping matches: `re.findall`. -/
def reFindAll (m : LC → Option (α × LC)) (s : LC) : List α :=
  findAllAux m (s.length + 1) s

/-! ## Python dicts as insertion-ordered association lists -/

/-- A Python `dict` mapping strings to strings: insertion-ordered entries. -/
abbrev Dict := List (LC × LC)

/-- Python dict lookup `d.get(k)` / `d[k]`. -/
def dLookup (d : Dict) (k : LC) : Option LC :=
  match d with
  | [] => none
  | (k2, v) :: rest => if k2 = k then some v else dLookup rest k

/-- Python dict assignment `d[k] = v`: overwrite in place, else append. -/
def dSet (d : Dict) (k : LC) (v : LC) : Dict :=
  match d with
  | [] => [(k, v)]
  | (k2, v2) :: rest => if k2 = k then (k2, v) :: rest else (k2, v2) :: dSet rest k v

/-- Merge `extra` into `base`, entry by entry, as `for k, v in extra: base[k] = v`. -/
def dMerge (base : Dict) (extra : Dict) : Dict :=
  extra.foldl (fun d kv => dSet d kv.1 kv.2) base

/-! ## strip_tags (source lines 344-349) -/

/-- Substitution `re.sub(r"<[^>]+>", " ", text)`: replace each complete tag
with one space; a `<` with no matching `>` (or an empty tag body) is kept.
Fuel-driven left-to-right scan; fuel `length + 1` suffices since every step
consumes at least one character. -/
def stripTagsSub : Nat → LC → LC
  | 0, s => s
  | _ + 1, [] => []
  | fuel + 1, c :: t =>
    if c = '<' then
      let span := t.takeWhile (fun d => !(d == '>'))
      if span.isEmpty then c :: stripTagsSub fuel t
      else
        match t.drop span.length with
        | d :: rest => if d = '>' then ' ' :: stripTagsSub fuel rest else c :: stripTagsSub fuel t
        | [] => c :: stripTagsSub fuel t
    else c :: stripTagsSub fuel t

/-- Named HTML entities recognised by the embedding of `html.unescape`
(the stdlib table is much larger; the source only ever meets these). -/
def namedEntities : List (LC × Char) :=
  [(lcOf "amp", '&'), (lcOf "lt", '<'), (lcOf "gt", '>'),
   (lcOf "quot", dq), (lcOf "apos", sq), (lcOf "nbsp", Char.ofNat 160)]

/-- Decimal value of a digit list. -/
def decVal (ds : LC) : Nat := ds.foldl (fun n c => n * 10 + (c.toNat - 48)) 0

/-- Hexadecimal value of a hex-digit list. -/
def hexVal (ds : LC) : Nat :=
  ds.foldl (fun n c =>
    n * 16 + (if c.isDigit then c.toNat - 48 else c.toLower.toNat - 87)) 0

/-- Embedding of `html.unescape`, restricted to semicolon-terminated numeric
references and the entities of `namedEntities`; anything else is left as is
(as the stdlib does for unrecognised entities). -/
def htmlUnescapeAux : Nat → LC → LC
  | 0, s => s
  | _ + 1, [] => []
  | fuel + 1, c :: t =>
    if c = '&' then
      match t with
      | '#' :: 'x' :: rest =>
        let ds := rest.takeWhile (fun d => d.isDigit || (('a' ≤ d.toLower) && (d.toLower ≤ 'f')))
        (match ds, rest.drop ds.length with
         | _ :: _, ';' :: rest2 => Char.ofNat (hexVal ds) :: htmlUnescapeAux fuel rest2
         | _, _ => c :: htmlUnescapeAux fuel t)
      | '#' :: rest =>
        let ds := rest.takeWhile isDigitC
        (match ds, rest.drop ds.length with
         | _ :: _, ';' :: rest2 => Char.ofNat (decVal ds) :: htmlUnescapeAux fuel rest2
         | _, _ => c :: htmlUnescapeAux fuel t)
      | _ =>
        match namedEntities.find? (fun nc => (nc.1 ++ [';']).isPrefixOf t) with
        | some nc => nc.2 :: htmlUnescapeAux fuel (t.drop (nc.1.length + 1))
        | none => c :: htmlUnescapeAux fuel t
    else c :: htmlUnescapeAux fuel t

/-- Substitution `re.sub(r"\s+", " ", text)`. -/
def collapseWS : Nat → LC → LC
  | 0, s => s
  | _ + 1, [] => []
  | fuel + 1, c :: t =>
    if isPySpace c then ' ' :: collapseWS fuel (t.dropWhile isPySpace)
    else c :: collapseWS fuel t

/-- `strip_tags` (source lines 344-349): drop tags, decode entities,
collapse whitespace, strip. -/
def strip_tags (s : LC) : LC :=
  let a := stripTagsSub (s.length + 1) s
  let b := htmlUnescapeAux (a.length + 1) a
  let c := collapseWS (b.length + 1) b
  stripWS c

/-! ## Token extraction (`CommbuysClient._extract_tokens`, lines 157-182) -/

/-- The two session tokens of a page. -/
structure Tokens where
  viewState : Option LC
  csrf : Option LC
deriving Repr, DecidableEq

/-- The literal hidden-field name of the view-state token. -/
def vsName : LC := lcOf "javax.faces.ViewState"

/-- The literal hidden-field name of the CSRF token. -/
def csrfName : LC := lcOf "_csrf"

/-- The tail `value=["']([^"']+)` of the name-before-value pattern. -/
def hiddenATail (s5 : LC) : Option LC :=
  (mLit (lcOf "value=") s5).bind fun s6 =>
  (mQuote s6).bind fun s7 =>
  capPlusMax notQuote s7

/-- Pattern `name=["']FNAME["'][^>]*value=["']([^"']+)` (name before value). -/
def hiddenA (fname : LC) (s : LC) : Option LC :=
  (mLit (lcOf "name=") s).bind fun s1 =>
  (mQuote s1).bind fun s2 =>
  (mLit fname s2).bind fun s3 =>
  (mQuote s3).bind fun s4 =>
  btStar (fun c => !(c == '>')) hiddenATail s4

/-- The tail `["'][^>]*name=["']FNAME` of the value-before-name pattern,
carrying the captured value through. -/
def hiddenBTail (fname : LC) (cap : LC) (s3 : LC) : Option LC :=
  (mQuote s3).bind fun s4 =>
  btStar (fun c => !(c == '>')) (fun s5 =>
    (mLit (lcOf "name=") s5).bind fun s6 =>
    (mQuote s6).bind fun s7 =>
    (mLit fname s7).map fun _ => cap) s4

/-- Pattern `value=["']([^"']+)["'][^>]*name=["']FNAME` (value before name). -/
def hiddenB (fname : LC) (s : LC) : Option LC :=
  (mLit (lcOf "value=") s).bind fun s1 =>
  (mQuote s1).bind fun s2 =>
  btCapPlus notQuote (hiddenBTail fname) s2

/-- Extract one hidden-field value: try the name-before-value order first,
then the value-before-name order (source lines 160-181, per field name). -/
def extractHidden (fname : LC) (s : LC) : Option LC :=
  match reSearch (hiddenA fname) s with
  | some v => some v
  | none => reSearch (hiddenB fname) s

/-- `_extract_tokens`: view-state and CSRF tokens of a page body. -/
def extract_tokens (s : LC) : Tokens :=
  ⟨extractHidden vsName s, extractHidden csrfName s⟩

/-! ## Reset-button discovery (`_find_reset_button`, lines 184-197) -/

/-- Pattern
`searchNew\s*=\s*function\s*\(\)\s*\{[^}]*?s:\s*["'](FORMID:[^"']+)["']`
with DOTALL (no dot occurs, so the flag is inert). -/
def resetPat (fid : LC) (s : LC) : Option LC :=
  (mLit (lcOf "searchNew") s).bind fun s1 =>
  btStar isPySpace (fun s2 =>
    (mChar '=' s2).bind fun s3 =>
    btStar isPySpace (fun s4 =>
      (mLit (lcOf "function") s4).bind fun s5 =>
      btStar isPySpace (fun s6 =>
        (mLit (lcOf "()") s6).bind fun s7 =>
        btStar isPySpace (fun s8 =>
          (mChar obr s8).bind fun s9 =>
          lzStar (fun c => !(c == cbr)) (fun s10 =>
            (mLit (lcOf "s:") s10).bind fun s11 =>
            btStar isPySpace (fun s12 =>
              (mQuote s12).bind fun s13 =>
              (mLit fid s13).bind fun s14 =>
              (mChar ':' s14).bind fun s15 =>
              btCapPlus notQuote (fun cap s16 =>
                (mQuote s16).map fun _ => fid ++ ':' :: cap) s15) s11) s9) s7) s5) s3) s1

/-- `_find_reset_button`: the generated reset/searchNew action id, if any. -/
def find_reset_button (s : LC) (fid : LC) : Option LC :=
  reSearch (resetPat fid) s

/-! ## Partial-update envelope (`_parse_ajax_response`, lines 236-241,
and the updated-view-state extraction of `ajax_search`, lines 312-317) -/

/-- One CDATA block: `<!\[CDATA\[(.*?)\]\]>` with DOTALL; yields the block
content and the rest of the input after the match. -/
def cdataPat (s : LC) : Option (LC × LC) :=
  (mLit (lcOf "<![CDATA[") s).bind fun s1 =>
  lzCap (fun _ => true) (fun s2 => mLit (lcOf "]]>") s2) s1

/-- `_parse_ajax_response`: join all CDATA blocks with newlines. -/
def parse_ajax_response (s : LC) : LC :=
  List.intercalate (lcOf "\n") (reFindAll cdataPat s)

/-- Pattern
`<update\s+id=["']javax\.faces\.ViewState["']>\s*<!\[CDATA\[([^\]]+)\]\]>`. -/
def updVsPat (s : LC) : Option LC :=
  (mLit (lcOf "<update") s).bind fun s1 =>
  btPlus isPySpace (fun s2 =>
    (mLit (lcOf "id=") s2).bind fun s3 =>
    (mQuote s3).bind fun s4 =>
    (mLit vsName s4).bind fun s5 =>
    (mQuote s5).bind fun s6 =>
    (mChar '>' s6).bind fun s7 =>
    btStar isPySpace (fun s8 =>
      (mLit (lcOf "<![CDATA[") s8).bind fun s9 =>
      btCapPlus (fun c => !(c == ']')) (fun cap s10 =>
        (mLit (lcOf "]]>") s10).map fun _ => cap) s9) s7) s1

/-- Extract the rotated view-state from a reset response, if present. -/
def extract_updated_vs (s : LC) : Option LC :=
  reSearch updVsPat s

/-! ## Dropdown resolution (`_resolve_org_code`, lines 243-270) -/

/-- Pattern `<select[^>]*name="FIELD"[^>]*>(.*?)</select>` with DOTALL. -/
def selectPat (field : LC) (s : LC) : Option LC :=
  (mLit (lcOf "<select") s).bind fun s1 =>
  btStar (fun c => !(c == '>')) (fun s2 =>
    (mLit (lcOf "name=") s2).bind fun s3 =>
    (mChar dq s3).bind fun s4 =>
    (mLit field s4).bind fun s5 =>
    (mChar dq s5).bind fun s6 =>
    btStar (fun c => !(c == '>')) (fun s7 =>
      (mChar '>' s7).bind fun s8 =>
      (lzCap (fun _ => true) (fun s9 => mLit (lcOf "</select>") s9) s8).map
        fun r => r.1) s6) s1

/-- Pattern `<option[^>]*value="([^"]*)"[^>]*>(.*?)</option>` (no DOTALL, so
the lazy label capture does not cross newlines); yields the
(value, label) pair and the rest after the match. -/
def optionPat (s : LC) : Option ((LC × LC) × LC) :=
  (mLit (lcOf "<option") s).bind fun s1 =>
  btStar (fun c => !(c == '>')) (fun s2 =>
    (mLit (lcOf "value=") s2).bind fun s3 =>
    (mChar dq s3).bind fun s4 =>
    btCapStar (fun c => !(c == dq)) (fun vcap s5 =>
      (mChar dq s5).bind fun s6 =>
      btStar (fun c => !(c == '>')) (fun s7 =>
        (mChar '>' s7).bind fun s8 =>
        (lzCap (fun c => !(c == '\n')) (fun s9 => mLit (lcOf "</option>") s9) s8).map
          fun r => ((vcap, r.1), r.2)) s6) s4) s1

/-- The (value, label) pairs of a select block, in document order. -/
def optionsOf (inner : LC) : List (LC × LC) := reFindAll optionPat inner

/-- First loop of `_resolve_org_code`: exact case-insensitive label match. -/
def resolveLoopExact : List (LC × LC) → LC → Option LC
  | [], _ => none
  | (v, t) :: rest, term =>
    if term = toLowerL (stripWS t) then some v else resolveLoopExact rest term

/-- Second loop of `_resolve_org_code`: substring label match. -/
def resolveLoopSub : List (LC × LC) → LC → Option LC
  | [], _ => none
  | (v, t) :: rest, term =>
    if isSubstr term (toLowerL (stripWS t)) then some v else resolveLoopSub rest term

/-- The option list the resolver works over: the options of the
`FORMID:organization` select block, or `[]` when that block is absent. -/
def pageOptions (page : LC) (fid : LC) : List (LC × LC) :=
  match reSearch (selectPat (fid ++ lcOf ":organization")) page with
  | none => []
  | some inner => optionsOf inner

/-- The body of `_resolve_org_code` for a given select-field name (the
spec's Dropdown Resolver contract `resolveOption(pageBody, fieldName,
displayText)`): exact match first, then substring, else the input
unchanged. -/
def resolveSelectField (page : LC) (field : LC) (text : LC) : LC :=
  match reSearch (selectPat field) page with
  | none => text
  | some inner =>
    let options := optionsOf inner
    let term := toLowerL text
    match resolveLoopExact options term with
    | some v => v
    | none =>
      match resolveLoopSub options term with
      | some v => v
      | none => text

/-- `_resolve_org_code`: the resolver applied to the page's
`FORMID:organization` select field. -/
def resolve_org_code (page : LC) (fid : LC) (org : LC) : LC :=
  resolveSelectField page (fid ++ lcOf ":organization") org

/-! ## Result-list extractors (lines 395-432, 592-632, 635-680) -/

/-- Row pattern `<tr[^>]*data-ri="[^"]*"[^>]*>(.*?)</tr>` with
DOTALL and IGNORECASE; yields the row body and the rest after the match. -/
def rowPat (s : LC) : Option (LC × LC) :=
  (mLitCI (lcOf "<tr") s).bind fun s1 =>
  btStar (fun c => !(c == '>')) (fun s2 =>
    (mLitCI (lcOf "data-ri=") s2).bind fun s3 =>
    (mChar dq s3).bind fun s4 =>
    btStar (fun c => !(c == dq)) (fun s5 =>
      (mChar dq s5).bind fun s6 =>
      btStar (fun c => !(c == '>')) (fun s7 =>
        (mChar '>' s7).bind fun s8 =>
        lzCap (fun _ => true) (fun s9 => mLitCI (lcOf "</tr>") s9) s8) s6) s4) s1

/-- All data-row-marked row bodies of a page, in document order. -/
def rowBlocks (s : LC) : List LC := reFindAll rowPat s

/-- Cell pattern `<td[^>]*>(.*?)</td>` with DOTALL and IGNORECASE. -/
def tdPat (s : LC) : Option (LC × LC) :=
  (mLitCI (lcOf "<td") s).bind fun s1 =>
  btStar (fun c => !(c == '>')) (fun s2 =>
    (mChar '>' s2).bind fun s3 =>
    lzCap (fun _ => true) (fun s4 => mLitCI (lcOf "</td>") s4) s3) s1

/-- The raw cell contents of one row body, in order. -/
def tdCells (block : LC) : List LC := reFindAll tdPat block

/-- Per-row body of `parse_bid_search_results` (lines 410-430): shape
dispatch on the cell count. -/
def bidRecordOfCells (cells : List LC) : Option Dict :=
  if cells.length < 6 then none
  else
    let ct := cells.map strip_tags
    let base : Dict := [(lcOf "bid_number", ct.getD 0 [])]
    if 12 ≤ cells.length then
      some (dSet (dSet (dSet (dSet (dSet base
        (lcOf "organization") (ct.getD 2 []))
        (lcOf "buyer") (ct.getD 5 []))
        (lcOf "description") (ct.getD 6 []))
        (lcOf "open_date") (ct.getD 7 []))
        (lcOf "status") (ct.getD 10 []))
    else
      some (dSet (dSet (dSet base
        (lcOf "description") (ct.getD 1 []))
        (lcOf "organization") (ct.getD 2 []))
        (lcOf "open_date") (ct.getD 4 []))

/-- `parse_bid_search_results`. -/
def parse_bid_search_results (s : LC) : List Dict :=
  (rowBlocks s).filterMap (fun b => bidRecordOfCells (tdCells b))

/-- Per-row body of `parse_blanket_search_results` (lines 607-630). -/
def blanketRecordOfCells (cells : List LC) : Option Dict :=
  if cells.length < 5 then none
  else
    let ct := cells.map strip_tags
    let base : Dict := [(lcOf "contract_number", ct.getD 0 [])]
    if 12 ≤ cells.length then
      some (dSet (dSet (dSet (dSet (dSet (dSet (dSet (dSet (dSet base
        (lcOf "bid_number") (ct.getD 2 []))
        (lcOf "description") (ct.getD 4 []))
        (lcOf "vendor") (ct.getD 5 []))
        (lcOf "type") (ct.getD 6 []))
        (lcOf "amount") (ct.getD 7 []))
        (lcOf "organization") (ct.getD 8 []))
        (lcOf "status") (ct.getD 9 []))
        (lcOf "start_date") (ct.getD 10 []))
        (lcOf "end_date") (ct.getD 11 []))
    else
      some (dSet base (lcOf "description") (ct.getD 4 []))

/-- `parse_blanket_search_results`. -/
def parse_blanket_search_results (s : LC) : List Dict :=
  (rowBlocks s).filterMap (fun b => blanketRecordOfCells (tdCells b))

/-- Pattern `vendorId=([^&"']+)` with IGNORECASE, searched in the row body. -/
def vendorIdPat (s : LC) : Option LC :=
  (mLitCI (lcOf "vendorId=") s).bind fun s1 =>
  capPlusMax (fun c => !(c == '&' || c == dq || c == sq)) s1

/-- Per-row body of `parse_vendor_search_results` (lines 650-678): the row
body is also consulted for the vendor-id link; rows without a usable
vendor name are dropped. -/
def vendorRecordOfCells (block : LC) (cells : List LC) : Option Dict :=
  if cells.length < 3 then none
  else
    let ct := cells.map strip_tags
    let base : Dict :=
      match reSearch vendorIdPat block with
      | some v => [(lcOf "vendor_id", v)]
      | none => []
    let rcd : Dict :=
      if 9 ≤ cells.length then
        dSet (dSet (dSet (dSet (dSet (dSet (dSet base
          (lcOf "vendor_name") (ct.getD 2 []))
          (lcOf "address") (ct.getD 3 []))
          (lcOf "city") (ct.getD 4 []))
          (lcOf "state") (ct.getD 5 []))
          (lcOf "zip") (ct.getD 6 []))
          (lcOf "contact") (ct.getD 7 []))
          (lcOf "phone") (ct.getD 8 [])
      else
        dSet base (lcOf "vendor_name")
          (if (ct.getD 2 []).isEmpty then ct.getD 0 [] else ct.getD 2 [])
    match dLookup rcd (lcOf "vendor_name") with
    | some v => if v.isEmpty then none else some rcd
    | none => none

/-- `parse_vendor_search_results`. -/
def parse_vendor_search_results (s : LC) : List Dict :=
  (rowBlocks s).filterMap (fun b => vendorRecordOfCells b (tdCells b))

/-! ## Detail-page extractors (`parse_bid_detail` lines 435-523,
`parse_po_detail` lines 526-589) -/

/-- The shared tail of every labeled-field pattern:
`\s*</td>\s*<td[^>]*>(.*?)</td>` with DOTALL and IGNORECASE. -/
def fieldTail (s : LC) : Option LC :=
  btStar isPySpace (fun s2 =>
    (mLitCI (lcOf "</td>") s2).bind fun s3 =>
    btStar isPySpace (fun s4 =>
      (mLitCI (lcOf "<td") s4).bind fun s5 =>
      btStar (fun c => !(c == '>')) (fun s6 =>
        (mChar '>' s6).bind fun s7 =>
        (lzCap (fun _ => true) (fun s8 => mLitCI (lcOf "</td>") s8) s7).map
          fun r => r.1) s5) s3) s

/-- The standard labeled-field pattern `LABEL\s*</td>\s*<td[^>]*>(.*?)</td>`
(the label literal includes its colon). -/
def fieldPat (label : LC) (s : LC) : Option LC :=
  (mLitCI label s).bind fieldTail

/-- Pattern for `available_date`: `Available Date\s*:\s*</td>\s*<td[^>]*>(.*?)</td>`. -/
def availDatePat (s : LC) : Option LC :=
  (mLitCI (lcOf "Available Date") s).bind fun s1 =>
  btStar isPySpace (fun s2 => (mChar ':' s2).bind fieldTail) s1

/-- Pattern for `sbpp_eligible`:
`SBPP.*?Eligible\?.*?</td>\s*<td[^>]*>(.*?)</td>` with DOTALL and IGNORECASE. -/
def sbppPat (s : LC) : Option LC :=
  (mLitCI (lcOf "SBPP") s).bind fun s1 =>
  lzStar (fun _ => true) (fun s2 =>
    (mLitCI (lcOf "Eligible?") s2).bind fun s3 =>
    lzStar (fun _ => true) (fun s4 =>
      (mLitCI (lcOf "</td>") s4).bind fun s5 =>
      btStar isPySpace (fun s6 =>
        (mLitCI (lcOf "<td") s6).bind fun s7 =>
        btStar (fun c => !(c == '>')) (fun s8 =>
          (mChar '>' s8).bind fun s9 =>
          (lzCap (fun _ => true) (fun s10 => mLitCI (lcOf "</td>") s10) s9).map
            fun r => r.1) s7) s5) s3) s1

/-- Pattern for the purchase-order `vendor` field:
`Vendor:?\s*</td>\s*<td[^>]*>(.*?)</td>` (optional colon, greedy first). -/
def poVendorPat (s : LC) : Option LC :=
  (mLitCI (lcOf "Vendor") s).bind fun s1 =>
  match s1 with
  | ':' :: t =>
    (match fieldTail t with
     | some a => some a
     | none => fieldTail (':' :: t))
  | _ => fieldTail s1

/-- One bid-detail field: the result key paired with its pattern. -/
abbrev FieldSpec := LC × (LC → Option LC)

/-- The bid-detail fields, in the source's insertion order (the
`field_patterns` dict of lines 441-460 followed by the three separate
searches of lines 467-492). -/
def bidFieldSpecs : List FieldSpec :=
  [(lcOf "bid_number", fieldPat (lcOf "Bid Number:")),
   (lcOf "description", fieldPat (lcOf "Description:")),
   (lcOf "bid_opening_date", fieldPat (lcOf "Bid Opening Date:")),
   (lcOf "purchaser", fieldPat (lcOf "Purchaser:")),
   (lcOf "organization", fieldPat (lcOf "Organization:")),
   (lcOf "department", fieldPat (lcOf "Department:")),
   (lcOf "location", fieldPat (lcOf "Location:")),
   (lcOf "fiscal_year", fieldPat (lcOf "Fiscal Year:")),
   (lcOf "type_code", fieldPat (lcOf "Type Code:")),
   (lcOf "alternate_id", fieldPat (lcOf "Alternate Id:")),
   (lcOf "required_date", fieldPat (lcOf "Required Date:")),
   (lcOf "available_date", availDatePat),
   (lcOf "info_contact", fieldPat (lcOf "Info Contact:")),
   (lcOf "bid_type", fieldPat (lcOf "Bid Type:")),
   (lcOf "purchase_method", fieldPat (lcOf "Purchase Method:")),
   (lcOf "allow_electronic_quote", fieldPat (lcOf "Allow Electronic Quote:")),
   (lcOf "informal_bid_flag", fieldPat (lcOf "Informal Bid Flag:")),
   (lcOf "sbpp_eligible", sbppPat),
   (lcOf "bulletin", fieldPat (lcOf "Bulletin Desc:")),
   (lcOf "ship_to_address", fieldPat (lcOf "Ship-to Address:")),
   (lcOf "bill_to_address", fieldPat (lcOf "Bill-to Address:"))]

/-- Run the labeled-field searches over a page: each field is searched for
independently and inserted (stripped) only when its pattern matched. -/
def mkFields (specs : List FieldSpec) (s : LC) : Dict :=
  specs.foldl
    (fun d kv =>
      match reSearch kv.2 s with
      | some cap => dSet d kv.1 (strip_tags cap)
      | none => d) []

/-- Attachment pattern `downloadFile\('(\d+)'\).*?>(.*?)</a>` with DOTALL
and IGNORECASE; yields ((id, raw name), rest). -/
def attachPat (s : LC) : Option ((LC × LC) × LC) :=
  (mLitCI (lcOf "downloadFile(") s).bind fun s1 =>
  (mChar sq s1).bind fun s2 =>
  btCapPlus isDigitC (fun num s3 =>
    (mChar sq s3).bind fun s4 =>
    (mChar ')' s4).bind fun s5 =>
    lzStar (fun _ => true) (fun s6 =>
      (mChar '>' s6).bind fun s7 =>
      (lzCap (fun _ => true) (fun s8 => mLitCI (lcOf "</a>") s8) s7).map
        fun r => ((num, r.1), r.2)) s5) s2

/-- All attachments of a detail page: (id, stripped name) pairs. -/
def attachmentsOf (s : LC) : List (LC × LC) :=
  (reFindAll attachPat s).map (fun p => (p.1, strip_tags p.2))

/-- Line-item pattern (lines 507-511):
`Item #\s*(\d+).*?<td[^>]*>(.*?)</td>.*?U N S P S C Code:\s*</td>\s*<td[^>]*>(.*?)</td>`
with DOTALL and IGNORECASE; yields ((number, raw description, raw code), rest). -/
def itemPat (s : LC) : Option ((LC × LC × LC) × LC) :=
  (mLitCI (lcOf "Item #") s).bind fun s1 =>
  btStar isPySpace (fun s2 =>
    btCapPlus isDigitC (fun num s3 =>
      lzStar (fun _ => true) (fun s4 =>
        (mLitCI (lcOf "<td") s4).bind fun s5 =>
        btStar (fun c => !(c == '>')) (fun s6 =>
          (mChar '>' s6).bind fun s7 =>
          (lzCap (fun _ => true) (fun s8 => mLitCI (lcOf "</td>") s8) s7).bind fun r1 =>
          lzStar (fun _ => true) (fun s9 =>
            (mLitCI (lcOf "U N S P S C Code:") s9).bind fun s10 =>
            btStar isPySpace (fun s11 =>
              (mLitCI (lcOf "</td>") s11).bind fun s12 =>
              btStar isPySpace (fun s13 =>
                (mLitCI (lcOf "<td") s13).bind fun s14 =>
                btStar (fun c => !(c == '>')) (fun s15 =>
                  (mChar '>' s15).bind fun s16 =>
                  (lzCap (fun _ => true) (fun s17 => mLitCI (lcOf "</td>") s17) s16).map
                    fun r2 => ((num, r1.1, r2.1), r2.2)) s14) s12) s10) r1.2) s5) s3) s2) s1

/-- All line items of a bid detail page. -/
def itemsOf (s : LC) : List (LC × LC × LC) :=
  (reFindAll itemPat s).map (fun t => (t.1, strip_tags t.2.1, strip_tags t.2.2))

/-- The result of `parse_bid_detail`: the labeled fields (a dict whose keys
are present only when matched), the attachments and the line items. -/
structure BidDetail where
  fields : Dict
  attachments : List (LC × LC)
  items : List (LC × LC × LC)
deriving Repr, DecidableEq

/-- `parse_bid_detail`. -/
def parse_bid_detail (s : LC) : BidDetail :=
  ⟨mkFields bidFieldSpecs s, attachmentsOf s, itemsOf s⟩

/-- The purchase-order-detail fields, in the source's insertion order
(lines 530-553 followed by the vendor search of lines 561-567). -/
def poFieldSpecs : List FieldSpec :=
  [(lcOf "po_number", fieldPat (lcOf "Purchase Order Number:")),
   (lcOf "release_number", fieldPat (lcOf "Release Number:")),
   (lcOf "short_description", fieldPat (lcOf "Short Description:")),
   (lcOf "status", fieldPat (lcOf "Status:")),
   (lcOf "purchaser", fieldPat (lcOf "Purchaser:")),
   (lcOf "receipt_method", fieldPat (lcOf "Receipt Method:")),
   (lcOf "fiscal_year", fieldPat (lcOf "Fiscal Year:")),
   (lcOf "po_type", fieldPat (lcOf "PO Type:")),
   (lcOf "organization", fieldPat (lcOf "Organization:")),
   (lcOf "department", fieldPat (lcOf "Department:")),
   (lcOf "location", fieldPat (lcOf "Location:")),
   (lcOf "type_code", fieldPat (lcOf "Type Code:")),
   (lcOf "alternate_id", fieldPat (lcOf "Alternate Id:")),
   (lcOf "entered_date", fieldPat (lcOf "Entered Date:")),
   (lcOf "days_aro", fieldPat (lcOf "Days ARO:")),
   (lcOf "release_type", fieldPat (lcOf "Release Type:")),
   (lcOf "contact_instructions", fieldPat (lcOf "Contact Instructions:")),
   (lcOf "actual_cost", fieldPat (lcOf "Actual Cost:")),
   (lcOf "print_format", fieldPat (lcOf "Print Format:")),
   (lcOf "master_blanket_begin_date", fieldPat (lcOf "Master Blanket Begin Date:")),
   (lcOf "master_blanket_end_date", fieldPat (lcOf "Master Blanket End Date:")),
   (lcOf "cooperative_purchasing", fieldPat (lcOf "Cooperative Purchasing Allowed:")),
   (lcOf "vendor", poVendorPat)]

/-- Purchase-order UNSPSC pattern (lines 570-574):
`U\s*N\s*S\s*P\s*S\s*C\s*Code:\s*</td>\s*<td[^>]*>(.*?)</td>`. -/
def poUnspscPat (s : LC) : Option (LC × LC) :=
  (mLitCI (lcOf "U") s).bind fun s1 =>
  btStar isPySpace (fun s2 =>
    (mLitCI (lcOf "N") s2).bind fun s3 =>
    btStar isPySpace (fun s4 =>
      (mLitCI (lcOf "S") s4).bind fun s5 =>
      btStar isPySpace (fun s6 =>
        (mLitCI (lcOf "P") s6).bind fun s7 =>
        btStar isPySpace (fun s8 =>
          (mLitCI (lcOf "S") s8).bind fun s9 =>
          btStar isPySpace (fun s10 =>
            (mLitCI (lcOf "C") s10).bind fun s11 =>
            btStar isPySpace (fun s12 =>
              (mLitCI (lcOf "Code:") s12).bind fun s13 =>
              btStar isPySpace (fun s14 =>
                (mLitCI (lcOf "</td>") s14).bind fun s15 =>
                btStar isPySpace (fun s16 =>
                  (mLitCI (lcOf "<td") s16).bind fun s17 =>
                  btStar (fun c => !(c == '>')) (fun s18 =>
                    (mChar '>' s18).bind fun s19 =>
                    lzCap (fun _ => true)
                      (fun s20 => mLitCI (lcOf "</td>") s20) s19) s17) s15) s13) s11) s9) s7) s5) s3) s1

/-- The result of `parse_po_detail`. -/
structure PoDetail where
  fields : Dict
  unspscCodes : List LC
  attachments : List (LC × LC)
deriving Repr, DecidableEq

/-- `parse_po_detail`. -/
def parse_po_detail (s : LC) : PoDetail :=
  ⟨mkFields poFieldSpecs s,
   (reFindAll poUnspscPat s).map strip_tags,
   attachmentsOf s⟩

/-! ## Transport retry loop (`CommbuysClient._make_request`, lines 67-101) -/

/-- The source's fixed retry ceiling. -/
def MAX_RETRIES : Nat := 3

/-- A transport-level failure: an HTTP error status
(`urllib.error.HTTPError`) or a low-level connection error
(`urllib.error.URLError`). -/
inductive NetErr where
  | http (code : Nat)
  | conn (reason : LC)
deriving Repr, DecidableEq

/-- HTTP status codes the retry loop treats as transient. -/
def retryableCode (c : Nat) : Bool :=
  c == 429 || c == 500 || c == 502 || c == 503 || c == 504

/-- Whether an error is of a kind the loop retries (connection errors are
always retried while attempts remain; HTTP errors only for the codes
above). -/
def errRetryable : NetErr → Bool
  | .http c => retryableCode c
  | .conn _ => true

/-- The retry loop of `_make_request`, over an oracle giving the outcome of
each attempt (attempt numbers are 0-based as in the source's `range`).
Returns the result together with the list of back-off sleeps performed, in
order.  The fuel equals the number of remaining loop iterations; the `0`
case is unreachable because the final attempt always returns or re-raises. -/
def mrGo (oracle : Nat → Except NetErr LC) : Nat → Nat → List Nat → Except NetErr LC × List Nat
  | 0, _, sleeps => (.error (.conn (lcOf "unreachable")), sleeps)
  | fuel + 1, attempt, sleeps =>
    match oracle attempt with
    | .ok body => (.ok body, sleeps)
    | .error e =>
      if errRetryable e && attempt + 1 < MAX_RETRIES then
        mrGo oracle fuel (attempt + 1) (sleeps ++ [2 ^ (attempt + 1)])
      else (.error e, sleeps)

/-- `_make_request` over an attempt oracle (body decoding is abstracted
into the oracle's successful value). -/
def make_request (oracle : Nat → Except NetErr LC) : Except NetErr LC × List Nat :=
  mrGo oracle MAX_RETRIES 0 []

/-! ## Session orchestration (`CommbuysClient.ajax_search`, lines 272-338) -/

/-- An error surfaced by the orchestration: the `RuntimeError` raised for a
missing view-state (a protocol error) or a transport failure propagated
unchanged. -/
inductive ClientError where
  | protocol (msg : LC)
  | transport (e : NetErr)
deriving Repr, DecidableEq

/-- The network as seen by one `ajax_search` run: the outcome of the
initial page GET (after the transport's own retry policy), and the body
returned for an AJAX POST with the given form data.  The POST responses
are modelled as total because the claims about the orchestrator presuppose
reachable responses; POST transport failures would propagate unchanged. -/
structure Net where
  page : Except NetErr LC
  post : Dict → LC

/-- The outcome of `ajax_search`: its result and the trace of AJAX POST
bodies it issued, in order. -/
structure AjaxResult where
  result : Except ClientError LC
  posts : List Dict

/-- The reset POST body (source lines 298-308). -/
def resetDataOf (fid rid vs : LC) (csrf : Option LC) : Dict :=
  let d := dSet [] (lcOf "javax.faces.partial.ajax") (lcOf "true")
  let d := dSet d (lcOf "javax.faces.source") rid
  let d := dSet d (lcOf "javax.faces.partial.execute") (lcOf "@all")
  let d := dSet d (lcOf "javax.faces.partial.render") fid
  let d := dSet d rid rid
  let d := dSet d fid fid
  let d := dSet d vsName vs
  match csrf with
  | some c => dSet d csrfName c
  | none => d

/-- The search POST body (source lines 320-335), with the request's form
fields merged in last. -/
def searchDataOf (fid btn render vs : LC) (csrf : Option LC) (ffs : Dict) : Dict :=
  let d := dSet [] (lcOf "javax.faces.partial.ajax") (lcOf "true")
  let d := dSet d (lcOf "javax.faces.source") btn
  let d := dSet d (lcOf "javax.faces.partial.execute") (lcOf "@all")
  let d := dSet d (lcOf "javax.faces.partial.render") render
  let d := dSet d btn btn
  let d := dSet d fid fid
  let d := dSet d vsName vs
  let d := match csrf with | some c => dSet d csrfName c | none => d
  dMerge d ffs

/-- `ajax_search`: fetch the page, fail on a missing view-state, resolve
the organization field, optionally run the reset POST (rotating the held
view-state when the response carries an update), then run the search POST
and unwrap its partial-update envelope. -/
def ajax_search (net : Net) (fid btn : LC) (ffs0 : Dict) (resultsFid : Option LC) : AjaxResult :=
  match net.page with
  | .error e => ⟨.error (.transport e), []⟩
  | .ok page =>
    let tokens := extract_tokens page
    match tokens.viewState with
    | none => ⟨.error (.protocol (lcOf "Could not extract ViewState from search page")), []⟩
    | some vs0 =>
      let orgField := fid ++ lcOf ":organization"
      let ffs :=
        match dLookup ffs0 orgField with
        | some t => dSet ffs0 orgField (resolve_org_code page fid t)
        | none => ffs0
      match find_reset_button page fid with
      | some rid =>
        let rd := resetDataOf fid rid vs0 tokens.csrf
        let vs1 := (extract_updated_vs (net.post rd)).getD vs0
        let sd := searchDataOf fid btn (resultsFid.getD fid) vs1 tokens.csrf ffs
        ⟨.ok (parse_ajax_response (net.post sd)), [rd, sd]⟩
      | none =>
        let sd := searchDataOf fid btn (resultsFid.getD fid) vs0 tokens.csrf ffs
        ⟨.ok (parse_ajax_response (net.post sd)), [sd]⟩

/-! ## Search operations (`search_bids` 686-718, `search_blankets` 743-771,
`search_vendors` 774-798) -/

/-- One hexadecimal digit, lowercase as produced by `json.dumps`. -/
def hexDigit (n : Nat) : Char := Char.ofNat (if n < 10 then 48 + n else 87 + n)

/-- Four hexadecimal digits. -/
def hex4 (n : Nat) : LC :=
  [hexDigit (n / 4096 % 16), hexDigit (n / 256 % 16), hexDigit (n / 16 % 16), hexDigit (n % 16)]

/-- Per-character escaping of `json.dumps` with its default
`ensure_ascii=True`: short escapes, `\uXXXX` for other characters outside
the printable ASCII range, surrogate pairs beyond the BMP. -/
def jsonEscChar (c : Char) : LC :=
  if c = dq then ['\\', dq]
  else if c = '\\' then ['\\', '\\']
  else if c = '\n' then ['\\', 'n']
  else if c = '\r' then ['\\', 'r']
  else if c = '\t' then ['\\', 't']
  else if c = Char.ofNat 8 then ['\\', 'b']
  else if c = Char.ofNat 12 then ['\\', 'f']
  else if c.toNat < 32 || 126 < c.toNat then
    if c.toNat < 65536 then '\\' :: 'u' :: hex4 c.toNat
    else
      let n := c.toNat - 65536
      ('\\' :: 'u' :: hex4 (55296 + n / 1024)) ++ ('\\' :: 'u' :: hex4 (56320 + n % 1024))
  else [c]

/-- `json.dumps` of a string. -/
def pyJsonStr (s : LC) : LC :=
  (dq :: (s.map jsonEscChar).flatten) ++ [dq]

/-- `json.dumps` of a string-to-string dict (default separators). -/
def pyJsonDict (d : Dict) : LC :=
  (obr :: List.intercalate (lcOf ", ")
    (d.map (fun kv => pyJsonStr kv.1 ++ lcOf ": " ++ pyJsonStr kv.2))) ++ [cbr]

/-- The argument object of a search command.  `none` models an absent or
`None` attribute; the search/org/vendor/exclude strings take part only
when truthy (non-empty), as with the source's `if getattr(...)` guards. -/
structure SearchArgs where
  search : Option LC := none
  org : Option LC := none
  vendor : Option LC := none
  openBids : Bool := false
  exclude : Option LC := none
  limit : Option Int := some 100

/-- `getattr(args, "limit", 100) or 100`: absent and falsy (zero) limits
become 100. -/
def effLimit (l : Option Int) : Int :=
  let v := l.getD 100
  if v = 0 then 100 else v

/-- Python slice `xs[:n]`, including the negative-bound semantics
(`xs[:-k]` drops the last `k` elements). -/
def pySliceTo (n : Int) (xs : List α) : List α :=
  if 0 ≤ n then xs.take n.toNat else xs.take (xs.length - (-n).toNat)

/-- Truthiness guard used for the string-valued argument attributes. -/
def truthy (o : Option LC) : Option LC :=
  match o with
  | some t => if t.isEmpty then none else some t
  | none => none

/-- The exclude filter (lines 707-713): drop records whose lowercased JSON
serialization contains the lowercased exclude term. -/
def excludeFilter (excl : Option LC) (rs : List Dict) : List Dict :=
  match truthy excl with
  | some x =>
    let term := toLowerL x
    rs.filter (fun r => !(isSubstr term (toLowerL (pyJsonDict r))))
  | none => rs

/-- The form fields `search_bids` passes to `ajax_search` (lines 688-695). -/
def bidFormFields (args : SearchArgs) : Dict :=
  let ffs : Dict := []
  let ffs := match truthy args.search with
    | some t => dSet ffs (lcOf "bidSearchForm:desc") t
    | none => ffs
  let ffs := match truthy args.org with
    | some t => dSet ffs (lcOf "bidSearchForm:organization") t
    | none => ffs
  if args.openBids then dSet ffs (lcOf "bidSearchForm:openBids") (lcOf "true") else ffs

/-- `search_bids`. -/
def search_bids (net : Net) (args : SearchArgs) : Except ClientError (List Dict) :=
  let r := ajax_search net (lcOf "bidSearchForm") (lcOf "bidSearchForm:btnBidSearch")
    (bidFormFields args) (some (lcOf "bidSearchResultsForm"))
  match r.result with
  | .error e => .error e
  | .ok h =>
    .ok (pySliceTo (effLimit args.limit)
      (excludeFilter args.exclude (parse_bid_search_results h)))

/-- The form fields `search_blankets` passes to `ajax_search` (745-752). -/
def blanketFormFields (args : SearchArgs) : Dict :=
  let ffs : Dict := []
  let ffs := match truthy args.search with
    | some t => dSet ffs (lcOf "contractBlanketSearchForm:desc") t
    | none => ffs
  let ffs := match truthy args.org with
    | some t => dSet ffs (lcOf "contractBlanketSearchForm:organization") t
    | none => ffs
  match truthy args.vendor with
  | some t => dSet ffs (lcOf "contractBlanketSearchForm:vendorName") t
  | none => ffs

/-- `search_blankets`. -/
def search_blankets (net : Net) (args : SearchArgs) : Except ClientError (List Dict) :=
  let r := ajax_search net (lcOf "contractBlanketSearchForm")
    (lcOf "contractBlanketSearchForm:btnPoSearch") (blanketFormFields args)
    (some (lcOf "contractBlanketSearchResultsForm"))
  match r.result with
  | .error e => .error e
  | .ok h =>
    .ok (pySliceTo (effLimit args.limit)
      (excludeFilter args.exclude (parse_blanket_search_results h)))

/-- The form fields `search_vendors` passes to `ajax_search` (776-779). -/
def vendorFormFields (args : SearchArgs) : Dict :=
  match truthy args.search with
  | some t => dSet [] (lcOf "vendorSearchForm:vendorName") t
  | none => []

/-- `search_vendors`. -/
def search_vendors (net : Net) (args : SearchArgs) : Except ClientError (List Dict) :=
  let r := ajax_search net (lcOf "vendorSearchForm")
    (lcOf "vendorSearchForm:btnVendorSearch") (vendorFormFields args)
    (some (lcOf "vendorSearchResultsForm"))
  match r.result with
  | .error e => .error e
  | .ok h =>
    .ok (pySliceTo (effLimit args.limit)
      (excludeFilter args.exclude (parse_vendor_search_results h)))

/-! ## Canonical concrete inputs used in claim statements -/

/-- A page body declaring a hidden field with `name` before `value`. -/
def hiddenNV (fname v : LC) : LC :=
  lcOf "name=" ++ [dq] ++ fname ++ [dq] ++ lcOf " value=" ++ [dq] ++ v ++ [dq]

/-- A page body declaring a hidden field with `value` before `name`. -/
def hiddenVN (fname v : LC) : LC :=
  lcOf "value=" ++ [dq] ++ v ++ [dq] ++ lcOf " name=" ++ [dq] ++ fname ++ [dq]

/-- The part of `hiddenVN` after the value: closing quote, space, and the
name attribute. -/
def tailB (fname : LC) : LC := [dq] ++ lcOf " name=" ++ [dq] ++ fname ++ [dq]

/-- A canonical labeled detail row: label cell followed by value cell. -/
def rowOf (label v : LC) : LC :=
  lcOf "<tr><td>" ++ label ++ lcOf "</td><td>" ++ v ++ lcOf "</td></tr>"

/-- The entry a detail extractor produces for one labeled-field pattern:
the leftmost match of the field's pattern, stripped.  `mkFields` stores
exactly this value under the field's key when the pattern matches. -/
def fieldValue (label : LC) (body : LC) : Option LC :=
  (reSearch (fieldPat label) body).map strip_tags

/-- A concrete search page carrying view-state `VS1` and a reset action
id `bidSearchForm:j_idt55` inside the generated script. -/
def wPage1 : LC :=
  lcOf "<input type=" ++ [dq] ++ lcOf "hidden" ++ [dq] ++ lcOf " name=" ++ [dq] ++
  lcOf "javax.faces.ViewState" ++ [dq] ++ lcOf " value=" ++ [dq] ++ lcOf "VS1" ++ [dq] ++
  lcOf " /><script>searchNew = function() " ++ [obr] ++ lcOf "return PrimeFaces.ab(" ++
  [obr] ++ lcOf "s:" ++ [dq] ++ lcOf "bidSearchForm:j_idt55" ++ [dq] ++ [cbr] ++
  lcOf ");" ++ [cbr] ++ lcOf "</script>"

/-- A concrete search page carrying only a view-state (no reset script). -/
def wPage2 : LC :=
  lcOf "<input name=" ++ [dq] ++ lcOf "javax.faces.ViewState" ++ [dq] ++
  lcOf " value=" ++ [dq] ++ lcOf "VS1" ++ [dq] ++ lcOf " />"

/-- A concrete partial-update envelope whose single CDATA block holds two
data rows of six cells each. -/
def wRowsXml : LC :=
  lcOf "<partial-response><changes><update id=" ++ [dq] ++ lcOf "r" ++ [dq] ++
  lcOf "><![CDATA[<tr data-ri=" ++ [dq] ++ lcOf "0" ++ [dq] ++
  lcOf "><td>B1</td><td>D1</td><td>O1</td><td>x</td><td>5/1/25</td><td>y</td></tr>" ++
  lcOf "<tr data-ri=" ++ [dq] ++ lcOf "1" ++ [dq] ++
  lcOf "><td>B2</td><td>D2</td><td>O2</td><td>x</td><td>6/1/25</td><td>y</td></tr>]]></update></changes></partial-response>"

/-- A concrete blanket-search page: view-state plus a vendor-name select
list mapping the label `Acme Corporation` to the option value `V123`. -/
def c6Page : LC :=
  wPage2 ++ lcOf "<select name=" ++ [dq] ++ lcOf "contractBlanketSearchForm:vendorName" ++
  [dq] ++ lcOf "><option value=" ++ [dq] ++ lcOf "V123" ++ [dq] ++
  lcOf ">Acme Corporation</option></select>"

/-- A prefix that splits the `Organization:` label in two. -/
def c8P : LC := lcOf "<tr><td>Organ"

/-- The labeled region of the `location` field: the exact span matched by
the location pattern (label through the closing tag of the value cell). -/
def c8R : LC := lcOf "Location:</td><td>L1</td>"

/-- The rest of the page: the remainder of the split `Organization:` label
and its value cell. -/
def c8S : LC := lcOf "ization:</td><td>DCR</td></tr>"

/-- A detail-page body in which the `location` field's labeled region sits
between the two halves of an `Organization:` label. -/
def c8BodyA : LC := c8P ++ c8R ++ c8S

/-- The same body with the `location` field's labeled region removed. -/
def c8BodyB : LC := c8P ++ c8S

/-! ## Helper lemmas: dictionaries -/

theorem dLookup_dSet_self (d : Dict) (k v : LC) : dLookup (dSet d k v) k = some v := by
  induction d with
  | nil => simp [dSet, dLookup]
  | cons kv rest ih =>
    obtain ⟨k2, v2⟩ := kv
    by_cases h : k2 = k
    · simp [dSet, dLookup, h]
    · simp [dSet, dLookup, h, ih]

theorem dLookup_dSet_ne (d : Dict) (k k2 v : LC) (h : k2 ≠ k) :
    dLookup (dSet d k2 v) k = dLookup d k := by
  induction d with
  | nil => simp [dSet, dLookup, h]
  | cons kv rest ih =>
    obtain ⟨k3, v3⟩ := kv
    by_cases h3 : k3 = k2
    · subst h3
      simp [dSet, dLookup, h]
    · simp only [dSet, if_neg h3, dLookup]
      by_cases hk : k3 = k
      · simp [hk]
      · simp [hk, ih]

theorem dLookup_eq_none_iff (d : Dict) (k : LC) :
    dLookup d k = none ↔ ∀ kv ∈ d, kv.1 ≠ k := by
  induction d with
  | nil => simp [dLookup]
  | cons kv rest ih =>
    obtain ⟨k2, v2⟩ := kv
    by_cases h : k2 = k <;> simp [dLookup, h, ih]

theorem dLookup_dMerge_none : ∀ (extra base : Dict) (k : LC),
    dLookup extra k = none → dLookup (dMerge base extra) k = dLookup base k := by
  intro extra
  induction extra with
  | nil => intro base k _; rfl
  | cons kv rest ih =>
    intro base k h
    obtain ⟨k2, v2⟩ := kv
    by_cases h2 : k2 = k
    · simp [dLookup, h2] at h
    · have hrest : dLookup rest k = none := by simpa [dLookup, h2] using h
      calc dLookup (dMerge base ((k2, v2) :: rest)) k
          = dLookup (dMerge (dSet base k2 v2) rest) k := rfl
        _ = dLookup (dSet base k2 v2) k := ih _ _ hrest
        _ = dLookup base k := dLookup_dSet_ne _ _ _ _ h2

/-- The key list of a dict. -/
def dKeys (d : Dict) : List LC := d.map Prod.fst

theorem dLookup_dMerge_some : ∀ (extra base : Dict) (k v : LC),
    (dKeys extra).Nodup → dLookup extra k = some v →
    dLookup (dMerge base extra) k = some v := by
  intro extra
  induction extra with
  | nil => intro base k v _ h; simp [dLookup] at h
  | cons kv rest ih =>
    intro base k v hnd h
    obtain ⟨k2, v2⟩ := kv
    have hnd2 : k2 ∉ dKeys rest ∧ (dKeys rest).Nodup := by
      simpa [dKeys] using hnd
    by_cases h2 : k2 = k
    · subst h2
      have hv : v2 = v := by simpa [dLookup] using h
      subst hv
      have hrest : dLookup rest k2 = none := by
        rw [dLookup_eq_none_iff]
        intro kv2 hkv2 hk
        exact hnd2.1 (hk ▸ List.mem_map_of_mem Prod.fst hkv2)
      calc dLookup (dMerge base ((k2, v2) :: rest)) k2
          = dLookup (dMerge (dSet base k2 v2) rest) k2 := rfl
        _ = dLookup (dSet base k2 v2) k2 := dLookup_dMerge_none _ _ _ hrest
        _ = some v2 := dLookup_dSet_self _ _ _
    · have hrest : dLookup rest k = some v := by simpa [dLookup, h2] using h
      exact ih _ _ _ hnd2.2 hrest

/-! ## Helper lemmas: literal matching -/

theorem mLit_eq_some {l : LC} : ∀ {s r : LC}, mLit l s = some r ↔ s = l ++ r := by
  induction l with
  | nil => intro s r; simp [mLit]
  | cons a l ih =>
    intro s r
    cases s with
    | nil => simp [mLit]
    | cons c t =>
      by_cases h : c = a
      · subst h; simp [mLit, ih]
      · simp [mLit, h, Ne.symm h]

theorem mLit_self_append (l r : LC) : mLit l (l ++ r) = some r :=
  mLit_eq_some.2 rfl

theorem mLitCI_eq_some {l : LC} : ∀ {s r : LC},
    mLitCI l s = some r ↔ ∃ w, s = w ++ r ∧ toLowerL w = toLowerL l := by
  induction l with
  | nil =>
    intro s r
    simp only [mLitCI]
    constructor
    · intro h
      injection h with h
      exact ⟨[], by simp [h], rfl⟩
    · rintro ⟨w, hs, hw⟩
      have hw0 : w = [] := by
        have hlen := congrArg List.length hw
        simp only [toLowerL, List.length_map, List.length_nil] at hlen
        exact List.length_eq_zero.1 hlen
      subst hw0
      simp only [List.nil_append] at hs
      rw [hs]
  | cons a l ih =>
    intro s r
    cases s with
    | nil =>
      simp only [mLitCI]
      constructor
      · intro h; exact absurd h (by simp)
      · rintro ⟨w, hs, hw⟩
        cases w with
        | nil =>
          have hlen := congrArg List.length hw
          simp [toLowerL] at hlen
        | cons c2 t2 => simp at hs
    | cons c t =>
      constructor
      · intro h
        by_cases hc : c.toLower = a.toLower
        · have h2 : mLitCI l t = some r := by
            rw [mLitCI, if_pos hc] at h; exact h
          obtain ⟨w, ht, hw⟩ := ih.1 h2
          refine ⟨c :: w, by rw [ht]; rfl, ?_⟩
          simp only [toLowerL, List.map_cons]
          rw [hc]
          exact congrArg (Char.toLower a :: ·) hw
        · rw [mLitCI, if_neg hc] at h
          exact absurd h (by simp)
      · rintro ⟨w, hs, hw⟩
        cases w with
        | nil =>
          have hlen := congrArg List.length hw
          simp [toLowerL] at hlen
        | cons c2 t2 =>
          rw [List.cons_append] at hs
          injection hs with h1 h2
          subst h1
          simp only [toLowerL, List.map_cons] at hw
          injection hw with g1 g2
          rw [mLitCI, if_pos g1]
          exact ih.2 ⟨t2, h2, g2⟩

theorem mLitCI_self_append (l r : LC) : mLitCI l (l ++ r) = some r :=
  mLitCI_eq_some.2 ⟨l, rfl, rfl⟩

theorem mLitCI_some_suffix {l s r : LC} (h : mLitCI l s = some r) : r <:+ s := by
  obtain ⟨w, hs, -⟩ := mLitCI_eq_some.1 h
  exact hs ▸ ⟨w, rfl⟩

theorem mLitCI_some_ciStarts {l s r : LC} (h : mLitCI l s = some r) :
    ciStartsWith l s = true := by
  obtain ⟨w, hs, hw⟩ := mLitCI_eq_some.1 h
  subst hs
  rw [ciStartsWith, List.isPrefixOf_iff_prefix]
  have : toLowerL (w ++ r) = toLowerL l ++ toLowerL r := by
    simp only [toLowerL, List.map_append]
    rw [show List.map Char.toLower w = toLowerL l from hw]
    rfl
  rw [this]
  exact List.prefix_append _ _

/-- Matching a literal against `w ++ t` either stays inside `w` or splits
the literal at the boundary. -/
theorem mLit_append_split {l w t r : LC} (h : mLit l (w ++ t) = some r) :
    (∃ w2, w = l ++ w2 ∧ r = w2 ++ t) ∨
    (∃ x l2 w1, l = w1 ++ x :: l2 ∧ w = w1 ∧ mLit (x :: l2) t = some r) := by
  rw [mLit_eq_some] at h
  rcases List.append_eq_append_iff.1 h with ⟨u, hu1, hu2⟩ | ⟨u, hu1, hu2⟩
  · cases u with
    | nil =>
      have hl : l = w := by simpa using hu1
      have ht : t = r := by simpa using hu2
      exact Or.inl ⟨[], by simp [hl], by simp [ht]⟩
    | cons x l2 =>
      exact Or.inr ⟨x, l2, w, hu1, rfl, mLit_eq_some.2 hu2⟩
  · exact Or.inl ⟨u, hu1, hu2⟩

theorem mQuote_eq_some {s r : LC} :
    mQuote s = some r ↔ ∃ c, s = c :: r ∧ (c = dq ∨ c = sq) := by
  cases s with
  | nil => simp [mQuote]
  | cons c t =>
    rw [mQuote]
    by_cases hc : c = dq || c = sq
    · rw [if_pos hc]
      constructor
      · intro h
        injection h with h
        exact ⟨c, by rw [h], by simpa using hc⟩
      · rintro ⟨c2, hs, -⟩
        injection hs with h1 h2
        rw [h2]
    · rw [if_neg hc]
      constructor
      · intro h; exact absurd h (by simp)
      · rintro ⟨c2, hs, hc2⟩
        injection hs with h1 h2
        subst h1
        refine absurd ?_ hc
        rcases hc2 with h | h <;> simp [h]

theorem mChar_eq_some {a : Char} {s r : LC} :
    mChar a s = some r ↔ s = a :: r := by
  cases s with
  | nil => simp [mChar]
  | cons c t =>
    rw [mChar]
    by_cases h : c = a
    · subst h
      rw [if_pos rfl]
      constructor
      · intro hh; injection hh with hh; rw [hh]
      · intro hh; injection hh with h1 h2; rw [h2]
    · rw [if_neg h]
      constructor
      · intro hh; exact absurd hh (by simp)
      · intro hh
        injection hh with h1 h2
        exact absurd h1 h

/-! ## Helper lemmas: suffix inversions of the combinators -/

theorem btGo_some {α : Type} {k : LC → Option α} {s : LC} {a : α} :
    ∀ {n : Nat}, btGo k s n = some a → ∃ s2, s2 <:+ s ∧ k s2 = some a := by
  intro n
  induction n with
  | zero => intro h; exact ⟨s, List.suffix_refl s, h⟩
  | succ j ih =>
    intro h
    rw [btGo] at h
    cases hk : k (s.drop (j + 1)) with
    | some b =>
      rw [hk] at h
      exact ⟨s.drop (j + 1), List.drop_suffix _ _, hk.trans h⟩
    | none => rw [hk] at h; exact ih h

theorem btStar_some {α : Type} {p : Char → Bool} {k : LC → Option α} {s : LC} {a : α}
    (h : btStar p k s = some a) : ∃ s2, s2 <:+ s ∧ k s2 = some a :=
  btGo_some h

theorem btPlus_some {α : Type} {p : Char → Bool} {k : LC → Option α} {s : LC} {a : α}
    (h : btPlus p k s = some a) : ∃ s2, s2 <:+ s ∧ k s2 = some a := by
  cases s with
  | nil => simp [btPlus] at h
  | cons c t =>
    by_cases hp : p c
    · obtain ⟨s2, hs2, hk⟩ := btStar_some (by simpa [btPlus, hp] using h)
      exact ⟨s2, hs2.trans (List.suffix_cons c t), hk⟩
    · simp [btPlus, hp] at h

theorem btCapGo_some {α : Type} {k : LC → LC → Option α} {s : LC} {a : α} :
    ∀ {n : Nat}, btCapGo k s n = some a → ∃ cap s2, s2 <:+ s ∧ k cap s2 = some a := by
  intro n
  induction n with
  | zero => intro h; exact ⟨[], s, List.suffix_refl s, h⟩
  | succ j ih =>
    intro h
    rw [btCapGo] at h
    cases hk : k (s.take (j + 1)) (s.drop (j + 1)) with
    | some b =>
      rw [hk] at h
      exact ⟨s.take (j + 1), s.drop (j + 1), List.drop_suffix _ _, hk.trans h⟩
    | none => rw [hk] at h; exact ih h

theorem btCapPlus_some {α : Type} {p : Char → Bool} {k : LC → LC → Option α} {s : LC} {a : α}
    (h : btCapPlus p k s = some a) : ∃ cap s2, s2 <:+ s ∧ k cap s2 = some a := by
  cases s with
  | nil => simp [btCapPlus] at h
  | cons c t =>
    by_cases hp : p c
    · obtain ⟨cap, s2, hs2, hk⟩ := btCapGo_some (by simpa [btCapPlus, hp] using h)
      exact ⟨c :: cap, s2, hs2.trans (List.suffix_cons c t), hk⟩
    · simp [btCapPlus, hp] at h

theorem lzStar_some {α : Type} {p : Char → Bool} {k : LC → Option α} :
    ∀ {s : LC} {a : α}, lzStar p k s = some a → ∃ s2, s2 <:+ s ∧ k s2 = some a := by
  intro s
  induction s with
  | nil => intro a h; exact ⟨[], List.suffix_refl _, by simpa [lzStar] using h⟩
  | cons c t ih =>
    intro a h
    rw [lzStar] at h
    cases hk : k (c :: t) with
    | some b => rw [hk] at h; exact ⟨c :: t, List.suffix_refl _, hk.trans h⟩
    | none =>
      rw [hk] at h
      by_cases hp : p c
      · obtain ⟨s2, hs2, hk2⟩ := ih (by simpa [hp] using h)
        exact ⟨s2, hs2.trans (List.suffix_cons c t), hk2⟩
      · simp [hp] at h

theorem lzCap_some {α : Type} {p : Char → Bool} {k : LC → Option α} :
    ∀ {s cap : LC} {a : α}, lzCap p k s = some (cap, a) →
      ∃ s2, s2 <:+ s ∧ k s2 = some a := by
  intro s
  induction s with
  | nil =>
    intro cap a h
    rw [lzCap] at h
    cases hk : k [] with
    | some b => rw [hk] at h; exact ⟨[], List.suffix_refl _, by simp at h; rw [hk, h.2]⟩
    | none => rw [hk] at h; simp at h
  | cons c t ih =>
    intro cap a h
    rw [lzCap] at h
    cases hk : k (c :: t) with
    | some b =>
      rw [hk] at h
      exact ⟨c :: t, List.suffix_refl _, by simp at h; rw [hk, h.2]⟩
    | none =>
      rw [hk] at h
      by_cases hp : p c
      · simp only [hp, if_pos] at h
        cases h2 : lzCap p k t with
        | none => rw [h2] at h; simp at h
        | some r =>
          rw [h2] at h
          obtain ⟨cap2, a2⟩ := r
          obtain ⟨-, ha⟩ : c :: cap2 = cap ∧ a2 = a := by simpa using h
          obtain ⟨s2, hs2, hk2⟩ := ih (ha ▸ h2)
          exact ⟨s2, hs2.trans (List.suffix_cons c t), hk2⟩
      · simp [hp] at h

theorem reSearch_some {α : Type} {m : LC → Option α} :
    ∀ {s : LC} {a : α}, reSearch m s = some a → ∃ s2, s2 <:+ s ∧ m s2 = some a := by
  intro s
  induction s with
  | nil => intro a h; exact ⟨[], List.suffix_refl _, by simpa [reSearch] using h⟩
  | cons c t ih =>
    intro a h
    rw [reSearch] at h
    cases hk : m (c :: t) with
    | some b => rw [hk] at h; exact ⟨c :: t, List.suffix_refl _, hk.trans h⟩
    | none =>
      rw [hk] at h
      obtain ⟨s2, hs2, hm⟩ := ih h
      exact ⟨s2, hs2.trans (List.suffix_cons c t), hm⟩

theorem reSearch_of_head {α : Type} {m : LC → Option α} {s : LC} {a : α}
    (h : m s = some a) : reSearch m s = some a := by
  cases s <;> simp [reSearch, h]

theorem reSearch_append_none {α : Type} {m : LC → Option α} {t : LC} :
    ∀ {w : LC}, (∀ u, u <:+ w → u ≠ [] → m (u ++ t) = none) →
      reSearch m (w ++ t) = reSearch m t := by
  intro w
  induction w with
  | nil => intro _; rfl
  | cons c w ih =>
    intro h
    have h0 : m (c :: (w ++ t)) = none := h (c :: w) (List.suffix_refl _) (by simp)
    show reSearch m (c :: (w ++ t)) = _
    rw [reSearch, h0]
    exact ih (fun u hu hne => h u (hu.trans (List.suffix_cons c w)) hne)

theorem findAllAux_none {α : Type} {m : LC → Option (α × LC)} :
    ∀ (fuel : Nat) (s : LC), (∀ u, u <:+ s → m u = none) →
      findAllAux m fuel s = [] := by
  intro fuel
  induction fuel with
  | zero => intro s _; rfl
  | succ f ih =>
    intro s h
    cases s with
    | nil => simp [findAllAux, h [] (List.suffix_refl _)]
    | cons c t =>
      rw [findAllAux, h (c :: t) (List.suffix_refl _)]
      exact ih t (fun u hu => h u (hu.trans (List.suffix_cons c t)))

theorem reFindAll_none {α : Type} {m : LC → Option (α × LC)} {s : LC}
    (h : ∀ u, u <:+ s → m u = none) : reFindAll m s = [] :=
  findAllAux_none _ _ h

/-! ## Helper lemmas: greedy backtracking evaluation -/

theorem btGo_peak {α : Type} {k : LC → Option α} {s : LC} {a : α} (j : Nat) :
    ∀ {n : Nat}, j ≤ n → k (s.drop j) = some a →
      (∀ i, j < i → i ≤ n → k (s.drop i) = none) → btGo k s n = some a := by
  intro n
  induction n with
  | zero =>
    intro hj hk _
    have : j = 0 := Nat.le_zero.1 hj
    subst this
    simpa using hk
  | succ nn ih =>
    intro hj hk hnone
    by_cases hje : j = nn + 1
    · subst hje
      rw [btGo, hk]
    · have h1 : k (s.drop (nn + 1)) = none := hnone (nn + 1) (by omega) (Nat.le_refl _)
      rw [btGo, h1]
      exact ih (by omega) hk (fun i hi1 hi2 => hnone i hi1 (by omega))

theorem takeWhile_append_of_all {p : Char → Bool} :
    ∀ {u rest : LC}, (∀ c ∈ u, p c = true) →
      (u ++ rest).takeWhile p = u ++ rest.takeWhile p := by
  intro u
  induction u with
  | nil => intro rest _; rfl
  | cons c t ih =>
    intro rest h
    have hc : p c = true := h c (by simp)
    show List.takeWhile p (c :: (t ++ rest)) = (c :: t) ++ List.takeWhile p rest
    rw [List.takeWhile_cons, if_pos hc, ih (fun d hd => h d (by simp [hd]))]
    rfl

theorem takeWhile_cons_false {p : Char → Bool} {d : Char} {rest : LC}
    (h : p d = false) : (d :: rest).takeWhile p = [] := by
  simp [List.takeWhile_cons, h]

/-! ## Helper lemmas: the retry loop, step by step -/

theorem mrGo_step_ok {oracle : Nat → Except NetErr LC} {fuel attempt : Nat}
    {sleeps : List Nat} {body : LC} (hb : oracle attempt = .ok body) :
    mrGo oracle (fuel + 1) attempt sleeps = (.ok body, sleeps) := by
  rw [mrGo, hb]

theorem mrGo_step_retry {oracle : Nat → Except NetErr LC} {fuel attempt : Nat}
    {sleeps : List Nat} {e : NetErr} (he : oracle attempt = .error e)
    (hr : errRetryable e = true) (hlt : attempt + 1 < MAX_RETRIES) :
    mrGo oracle (fuel + 1) attempt sleeps =
      mrGo oracle fuel (attempt + 1) (sleeps ++ [2 ^ (attempt + 1)]) := by
  rw [mrGo, he]
  simp [hr, hlt]

theorem mrGo_step_raise {oracle : Nat → Except NetErr LC} {fuel attempt : Nat}
    {sleeps : List Nat} {e : NetErr} (he : oracle attempt = .error e)
    (hge : ¬ attempt + 1 < MAX_RETRIES) :
    mrGo oracle (fuel + 1) attempt sleeps = (.error e, sleeps) := by
  rw [mrGo, he]
  simp [hge]

/-! ## Helper lemmas: the resolver loops as first-match searches -/

theorem resolveLoopExact_eq (opts : List (LC × LC)) (term : LC) :
    resolveLoopExact opts term =
      Option.map Prod.fst (opts.find? (fun vt => term == toLowerL (stripWS vt.2))) := by
  induction opts with
  | nil => rfl
  | cons vt rest ih =>
    obtain ⟨v, t⟩ := vt
    by_cases h : term = toLowerL (stripWS t)
    · simp [resolveLoopExact, h, List.find?_cons]
    · simp [resolveLoopExact, h, List.find?_cons, ih]

theorem resolveLoopSub_eq (opts : List (LC × LC)) (term : LC) :
    resolveLoopSub opts term =
      Option.map Prod.fst (opts.find? (fun vt => isSubstr term (toLowerL (stripWS vt.2)))) := by
  induction opts with
  | nil => rfl
  | cons vt rest ih =>
    obtain ⟨v, t⟩ := vt
    by_cases h : isSubstr term (toLowerL (stripWS t)) = true
    · simp [resolveLoopSub, h, List.find?_cons]
    · simp [resolveLoopSub, h, List.find?_cons, ih]

/-! ## Helper lemmas: the POST bodies of the orchestrator -/

theorem orgField_ne_vsName (fid : LC) : fid ++ lcOf ":organization" ≠ vsName := by
  intro h
  have hc : ':' ∈ vsName := by
    rw [← h]
    exact List.mem_append_right fid (by decide)
  exact absurd hc (by decide)

theorem resetDataOf_vs (fid rid vs : LC) (csrf : Option LC) :
    dLookup (resetDataOf fid rid vs csrf) vsName = some vs := by
  simp only [resetDataOf]
  cases csrf with
  | some c =>
    rw [dLookup_dSet_ne _ _ _ _ (by decide : csrfName ≠ vsName), dLookup_dSet_self]
  | none => rw [dLookup_dSet_self]

theorem searchDataOf_vs (fid btn render vs : LC) (csrf : Option LC) (ffs : Dict)
    (hffs : dLookup ffs vsName = none) :
    dLookup (searchDataOf fid btn render vs csrf ffs) vsName = some vs := by
  simp only [searchDataOf]
  rw [dLookup_dMerge_none _ _ _ hffs]
  cases csrf with
  | some c =>
    rw [dLookup_dSet_ne _ _ _ _ (by decide : csrfName ≠ vsName), dLookup_dSet_self]
  | none => rw [dLookup_dSet_self]

theorem dKeys_cons (a b : LC) (l : Dict) : dKeys ((a, b) :: l) = a :: dKeys l := rfl

theorem mem_dKeys_dSet {d : Dict} {k v j : LC} (h : j ∈ dKeys (dSet d k v)) :
    j ∈ dKeys d ∨ j = k := by
  induction d with
  | nil =>
    rw [show dSet [] k v = [(k, v)] from rfl, dKeys_cons] at h
    rcases List.mem_cons.1 h with rfl | h3
    · exact Or.inr rfl
    · exact absurd h3 (by simp [dKeys])
  | cons kv rest ih =>
    obtain ⟨k2, v2⟩ := kv
    by_cases h2 : k2 = k
    · subst h2
      rw [show dSet ((k2, v2) :: rest) k2 v = (k2, v) :: rest from by simp [dSet]] at h
      rw [dKeys_cons] at h ⊢
      exact Or.inl h
    · rw [show dSet ((k2, v2) :: rest) k v = (k2, v2) :: dSet rest k v from by
        simp [dSet, h2]] at h
      rw [dKeys_cons] at h ⊢
      rcases List.mem_cons.1 h with rfl | h3
      · exact Or.inl (List.mem_cons_self _ _)
      · rcases ih h3 with h4 | h4
        · exact Or.inl (List.mem_cons_of_mem _ h4)
        · exact Or.inr h4

theorem dKeys_dSet_nodup (d : Dict) (k v : LC) (h : (dKeys d).Nodup) :
    (dKeys (dSet d k v)).Nodup := by
  induction d with
  | nil =>
    rw [show dSet [] k v = [(k, v)] from rfl, dKeys_cons]
    simp [dKeys]
  | cons kv rest ih =>
    obtain ⟨k2, v2⟩ := kv
    rw [dKeys_cons, List.nodup_cons] at h
    by_cases h2 : k2 = k
    · subst h2
      rw [show dSet ((k2, v2) :: rest) k2 v = (k2, v) :: rest from by simp [dSet],
        dKeys_cons, List.nodup_cons]
      exact ⟨h.1, h.2⟩
    · rw [show dSet ((k2, v2) :: rest) k v = (k2, v2) :: dSet rest k v from by
        simp [dSet, h2], dKeys_cons, List.nodup_cons]
      refine ⟨?_, ih h.2⟩
      intro hmem
      rcases mem_dKeys_dSet hmem with h3 | h3
      · exact h.1 h3
      · exact h2 h3

theorem searchDataOf_lookup_ffs (fid btn render vs k v : LC) (csrf : Option LC)
    (ffs : Dict) (hnd : (dKeys ffs).Nodup) (h : dLookup ffs k = some v) :
    dLookup (searchDataOf fid btn render vs csrf ffs) k = some v := by
  simp only [searchDataOf]
  cases csrf with
  | some c => exact dLookup_dMerge_some _ _ _ _ hnd h
  | none => exact dLookup_dMerge_some _ _ _ _ hnd h

/-! ## Helper lemmas: markers every extractor pattern needs -/

theorem occursCI_of_suffix {needle u s : LC} (hu : u <:+ s)
    (h : ∃ s2, s2 <:+ u ∧ ciStartsWith needle s2 = true) : occursCI needle s = true := by
  obtain ⟨s2, h2, hci⟩ := h
  rw [occursCI, List.any_eq_true]
  exact ⟨s2, (List.mem_tails _ _).2 (h2.trans hu), hci⟩

theorem no_occursCI_elim {needle s u : LC} (hocc : occursCI needle s = false)
    (hu : u <:+ s) (h : ∃ s2, s2 <:+ u ∧ ciStartsWith needle s2 = true) : False := by
  have h2 := occursCI_of_suffix hu h
  rw [hocc] at h2
  exact Bool.noConfusion h2

theorem fieldTail_td {s cap : LC} (h : fieldTail s = some cap) :
    ∃ s2, s2 <:+ s ∧ ciStartsWith (lcOf "</td>") s2 = true := by
  obtain ⟨s2, hs2, h2⟩ := btStar_some h
  obtain ⟨s3, hm, -⟩ := Option.bind_eq_some.1 h2
  exact ⟨s2, hs2, mLitCI_some_ciStarts hm⟩

theorem fieldPat_td {label s cap : LC} (h : fieldPat label s = some cap) :
    ∃ s2, s2 <:+ s ∧ ciStartsWith (lcOf "</td>") s2 = true := by
  obtain ⟨s1, hm1, h1⟩ := Option.bind_eq_some.1 h
  obtain ⟨s2, hs2, hci⟩ := fieldTail_td h1
  exact ⟨s2, hs2.trans (mLitCI_some_suffix hm1), hci⟩

theorem availDatePat_td {s cap : LC} (h : availDatePat s = some cap) :
    ∃ s2, s2 <:+ s ∧ ciStartsWith (lcOf "</td>") s2 = true := by
  obtain ⟨s1, hm1, h1⟩ := Option.bind_eq_some.1 h
  obtain ⟨s2, hs2, h2⟩ := btStar_some h1
  obtain ⟨s3, hm3, h3⟩ := Option.bind_eq_some.1 h2
  obtain ⟨s4, hs4, hci⟩ := fieldTail_td h3
  have hsuf3 : s3 <:+ s2 := mChar_eq_some.1 hm3 ▸ List.suffix_cons ':' s3
  exact ⟨s4, ((hs4.trans hsuf3).trans hs2).trans (mLitCI_some_suffix hm1), hci⟩

theorem sbppPat_td {s cap : LC} (h : sbppPat s = some cap) :
    ∃ s2, s2 <:+ s ∧ ciStartsWith (lcOf "</td>") s2 = true := by
  obtain ⟨s1, hm1, h1⟩ := Option.bind_eq_some.1 h
  obtain ⟨s2, hs2, h2⟩ := lzStar_some h1
  obtain ⟨s3, hm3, h3⟩ := Option.bind_eq_some.1 h2
  obtain ⟨s4, hs4, h4⟩ := lzStar_some h3
  obtain ⟨s5, hm5, -⟩ := Option.bind_eq_some.1 h4
  exact ⟨s4, ((hs4.trans (mLitCI_some_suffix hm3)).trans hs2).trans
    (mLitCI_some_suffix hm1), mLitCI_some_ciStarts hm5⟩

theorem poVendorPat_td {s cap : LC} (h : poVendorPat s = some cap) :
    ∃ s2, s2 <:+ s ∧ ciStartsWith (lcOf "</td>") s2 = true := by
  obtain ⟨s1, hm1, h1⟩ := Option.bind_eq_some.1 h
  have hsuf1 : s1 <:+ s := mLitCI_some_suffix hm1
  split at h1
  · rename_i t
    split at h1
    · rename_i a hft
      obtain ⟨s2, hs2, hci⟩ := fieldTail_td hft
      exact ⟨s2, (hs2.trans (List.suffix_cons ':' t)).trans hsuf1, hci⟩
    · obtain ⟨s2, hs2, hci⟩ := fieldTail_td h1
      exact ⟨s2, hs2.trans hsuf1, hci⟩
  · obtain ⟨s2, hs2, hci⟩ := fieldTail_td h1
    exact ⟨s2, hs2.trans hsuf1, hci⟩

theorem poUnspscPat_td {s : LC} {cap : LC × LC} (h : poUnspscPat s = some cap) :
    ∃ s2, s2 <:+ s ∧ ciStartsWith (lcOf "</td>") s2 = true := by
  obtain ⟨s1, hm1, h1⟩ := Option.bind_eq_some.1 h
  obtain ⟨s2, hs2, h2⟩ := btStar_some h1
  obtain ⟨s3, hm3, h3⟩ := Option.bind_eq_some.1 h2
  obtain ⟨s4, hs4, h4⟩ := btStar_some h3
  obtain ⟨s5, hm5, h5⟩ := Option.bind_eq_some.1 h4
  obtain ⟨s6, hs6, h6⟩ := btStar_some h5
  obtain ⟨s7, hm7, h7⟩ := Option.bind_eq_some.1 h6
  obtain ⟨s8, hs8, h8⟩ := btStar_some h7
  obtain ⟨s9, hm9, h9⟩ := Option.bind_eq_some.1 h8
  obtain ⟨s10, hs10, h10⟩ := btStar_some h9
  obtain ⟨s11, hm11, h11⟩ := Option.bind_eq_some.1 h10
  obtain ⟨s12, hs12, h12⟩ := btStar_some h11
  obtain ⟨s13, hm13, h13⟩ := Option.bind_eq_some.1 h12
  obtain ⟨s14, hs14, h14⟩ := btStar_some h13
  obtain ⟨s15, hm15, -⟩ := Option.bind_eq_some.1 h14
  refine ⟨s14, ?_, mLitCI_some_ciStarts hm15⟩
  calc s14 <:+ s13 := hs14
    _ <:+ s12 := mLitCI_some_suffix hm13
    _ <:+ s11 := hs12
    _ <:+ s10 := mLitCI_some_suffix hm11
    _ <:+ s9 := hs10
    _ <:+ s8 := mLitCI_some_suffix hm9
    _ <:+ s7 := hs8
    _ <:+ s6 := mLitCI_some_suffix hm7
    _ <:+ s5 := hs6
    _ <:+ s4 := mLitCI_some_suffix hm5
    _ <:+ s3 := hs4
    _ <:+ s2 := mLitCI_some_suffix hm3
    _ <:+ s1 := hs2
    _ <:+ s := mLitCI_some_suffix hm1

theorem itemPat_td {s : LC} {cap : (LC × LC × LC) × LC} (h : itemPat s = some cap) :
    ∃ s2, s2 <:+ s ∧ ciStartsWith (lcOf "</td>") s2 = true := by
  obtain ⟨s1, hm1, h1⟩ := Option.bind_eq_some.1 h
  obtain ⟨s2, hs2, h2⟩ := btStar_some h1
  obtain ⟨num, s3, hs3, h3⟩ := btCapPlus_some h2
  obtain ⟨s4, hs4, h4⟩ := lzStar_some h3
  obtain ⟨s5, hm5, h5⟩ := Option.bind_eq_some.1 h4
  obtain ⟨s6, hs6, h6⟩ := btStar_some h5
  obtain ⟨s7, hm7, h7⟩ := Option.bind_eq_some.1 h6
  obtain ⟨r1, hlz, -⟩ := Option.bind_eq_some.1 h7
  obtain ⟨c1, a1⟩ := r1
  obtain ⟨s8, hs8, hm8⟩ := lzCap_some hlz
  have hsuf7 : s7 <:+ s6 := mChar_eq_some.1 hm7 ▸ List.suffix_cons '>' s7
  refine ⟨s8, ?_, mLitCI_some_ciStarts hm8⟩
  calc s8 <:+ s7 := hs8
    _ <:+ s6 := hsuf7
    _ <:+ s5 := hs6
    _ <:+ s4 := mLitCI_some_suffix hm5
    _ <:+ s3 := hs4
    _ <:+ s2 := hs3
    _ <:+ s1 := hs2
    _ <:+ s := mLitCI_some_suffix hm1

theorem attachPat_dl {s : LC} {cap : (LC × LC) × LC} (h : attachPat s = some cap) :
    ∃ s2, s2 <:+ s ∧ ciStartsWith (lcOf "downloadFile(") s2 = true := by
  obtain ⟨s1, hm1, -⟩ := Option.bind_eq_some.1 h
  exact ⟨s, List.suffix_refl s, mLitCI_some_ciStarts hm1⟩

theorem rowPat_tr {s : LC} {cap : LC × LC} (h : rowPat s = some cap) :
    ∃ s2, s2 <:+ s ∧ ciStartsWith (lcOf "<tr") s2 = true := by
  obtain ⟨s1, hm1, -⟩ := Option.bind_eq_some.1 h
  exact ⟨s, List.suffix_refl s, mLitCI_some_ciStarts hm1⟩

theorem rowBlocks_empty {s : LC} (h : occursCI (lcOf "<tr") s = false) :
    rowBlocks s = [] := by
  apply reFindAll_none
  intro u hu
  cases hro : rowPat u with
  | none => rfl
  | some p => exact absurd (no_occursCI_elim h hu (rowPat_tr hro)) not_false

theorem mkFields_acc_eq : ∀ (specs : List FieldSpec) (s : LC) (acc : Dict),
    (∀ ls ∈ specs, reSearch ls.2 s = none) →
    specs.foldl (fun d kv => match reSearch kv.2 s with
      | some cap => dSet d kv.1 (strip_tags cap)
      | none => d) acc = acc := by
  intro specs
  induction specs with
  | nil => intro s acc _; rfl
  | cons kv rest ih =>
    intro s acc h
    have h0 : reSearch kv.2 s = none := h kv (by simp)
    rw [List.foldl_cons]
    have hstep : (match reSearch kv.2 s with
        | some cap => dSet acc kv.1 (strip_tags cap)
        | none => acc) = acc := by rw [h0]
    rw [hstep]
    exact ih s acc (fun ls hls => h ls (by simp [hls]))

theorem mkFields_eq_nil {specs : List FieldSpec} {s : LC}
    (h : ∀ ls ∈ specs, reSearch ls.2 s = none) : mkFields specs s = [] :=
  mkFields_acc_eq specs s [] h

theorem bidSpecs_need_td {s : LC} (h : occursCI (lcOf "</td>") s = false) :
    ∀ ls ∈ bidFieldSpecs, reSearch ls.2 s = none := by
  intro ls hls
  cases hr : reSearch ls.2 s with
  | none => rfl
  | some cap =>
    exfalso
    obtain ⟨u, hu, hm⟩ := reSearch_some hr
    refine no_occursCI_elim h hu ?_
    simp only [bidFieldSpecs, List.mem_cons, List.not_mem_nil, or_false] at hls
    rcases hls with rfl | rfl | rfl | rfl | rfl | rfl | rfl | rfl | rfl | rfl | rfl |
      rfl | rfl | rfl | rfl | rfl | rfl | rfl | rfl | rfl | rfl
    all_goals first
      | exact fieldPat_td hm
      | exact availDatePat_td hm
      | exact sbppPat_td hm

theorem poSpecs_need_td {s : LC} (h : occursCI (lcOf "</td>") s = false) :
    ∀ ls ∈ poFieldSpecs, reSearch ls.2 s = none := by
  intro ls hls
  cases hr : reSearch ls.2 s with
  | none => rfl
  | some cap =>
    exfalso
    obtain ⟨u, hu, hm⟩ := reSearch_some hr
    refine no_occursCI_elim h hu ?_
    simp only [poFieldSpecs, List.mem_cons, List.not_mem_nil, or_false] at hls
    rcases hls with rfl | rfl | rfl | rfl | rfl | rfl | rfl | rfl | rfl | rfl | rfl |
      rfl | rfl | rfl | rfl | rfl | rfl | rfl | rfl | rfl | rfl | rfl | rfl
    all_goals first
      | exact fieldPat_td hm
      | exact poVendorPat_td hm

/-! ## Helper lemmas: order-insensitive token extraction -/

theorem some_bind (a : α) (f : α → Option β) : (Option.some a).bind f = f a := rfl

theorem mQuote_dq (X : LC) : mQuote ([dq] ++ X) = some X := rfl

theorem mLit_cons_head {x : Char} {l2 s r : LC} {c : Char}
    (h : mLit (x :: l2) (c :: s) = some r) : c = x := by
  rw [mLit] at h
  by_cases hx : c = x
  · exact hx
  · rw [if_neg hx] at h
    exact absurd h (by simp)

theorem drop_append_ge : ∀ (u X : LC) (i : Nat), u.length ≤ i →
    (u ++ X).drop i = X.drop (i - u.length) := by
  intro u
  induction u with
  | nil => intro X i _; simp
  | cons c t ih =>
    intro X i hi
    cases i with
    | zero => simp at hi
    | succ i2 =>
      show (t ++ X).drop i2 = X.drop (i2 + 1 - (t.length + 1))
      rw [show i2 + 1 - (t.length + 1) = i2 - t.length from by omega]
      exact ih X i2 (by simpa using hi)

theorem drop_append_le : ∀ (u X : LC) (i : Nat), i ≤ u.length →
    (u ++ X).drop i = u.drop i ++ X := by
  intro u
  induction u with
  | nil =>
    intro X i hi
    have : i = 0 := Nat.le_zero.1 hi
    subst this
    rfl
  | cons c t ih =>
    intro X i hi
    cases i with
    | zero => rfl
    | succ i2 =>
      show (t ++ X).drop i2 = t.drop i2 ++ X
      exact ih X i2 (by simpa using hi)

theorem capPlusMax_exact {v : LC} (hv : v ≠ []) (hvq : ∀ c ∈ v, notQuote c = true) :
    capPlusMax notQuote (v ++ [dq]) = some v := by
  unfold capPlusMax
  rw [takeWhile_append_of_all hvq,
    show List.takeWhile notQuote [dq] = [] from takeWhile_cons_false (by decide),
    List.append_nil]
  cases v with
  | nil => exact absurd rfl hv
  | cons c t => rfl

theorem hiddenATail_head_ne {c : Char} (hc : ¬ c = 'v') (X : LC) :
    hiddenATail (c :: X) = none := by
  unfold hiddenATail
  rw [show mLit (lcOf "value=") (c :: X) = none from by
    rw [show (lcOf "value=" : LC) = 'v' :: lcOf "alue=" from rfl, mLit, if_neg hc]]
  rfl

theorem hiddenA_head_ne (fname : LC) {c : Char} (hc : ¬ c = 'n') (X : LC) :
    hiddenA fname (c :: X) = none := by
  unfold hiddenA
  rw [show mLit (lcOf "name=") (c :: X) = none from by
    rw [show (lcOf "name=" : LC) = 'n' :: lcOf "ame=" from rfl, mLit, if_neg hc]]
  rfl

theorem hiddenATail_vregion {w : LC} (hw : ∀ c ∈ w, notQuote c = true) :
    hiddenATail (w ++ [dq]) = none := by
  unfold hiddenATail
  cases hm : mLit (lcOf "value=") (w ++ [dq]) with
  | none => rfl
  | some r =>
    rcases mLit_append_split hm with ⟨w2, hw2, hr⟩ | ⟨x, l2, w1, hl, hww, hm2⟩
    · rw [some_bind]
      subst hr
      cases w2 with
      | nil => rfl
      | cons c2 w2x =>
        have hc2 : notQuote c2 = true :=
          hw c2 (hw2 ▸ List.mem_append_right _ (List.mem_cons_self c2 w2x))
        have hcond : ¬ ((c2 = dq || c2 = sq) = true) := by
          intro hcc
          rw [notQuote, hcc] at hc2
          exact Bool.noConfusion hc2
        rw [show ((c2 :: w2x) ++ [dq] : LC) = c2 :: (w2x ++ [dq]) from rfl, mQuote,
          if_neg hcond]
        rfl
    · exfalso
      have hx : dq = x := mLit_cons_head hm2
      have hmem : x ∈ (lcOf "value=" : LC) :=
        hl ▸ List.mem_append_right w1 (List.mem_cons_self x l2)
      rw [← hx] at hmem
      exact absurd hmem (by decide)

theorem hiddenA_stage (v : LC) (hv : v ≠ []) (hvq : ∀ c ∈ v, notQuote c = true) :
    btStar (fun c => !(c == '>')) hiddenATail
      (lcOf " value=" ++ ([dq] ++ (v ++ [dq]))) = some v := by
  have hsp : ∀ c ∈ (lcOf " value=" ++ [dq] : LC), (!(c == '>')) = true := by decide
  unfold btStar
  have htw : (lcOf " value=" ++ ([dq] ++ (v ++ [dq]))).takeWhile (fun c => !(c == '>')) =
      (lcOf " value=" ++ [dq]) ++ (v ++ [dq]).takeWhile (fun c => !(c == '>')) := by
    rw [show (lcOf " value=" ++ ([dq] ++ (v ++ [dq])) : LC) =
      (lcOf " value=" ++ [dq]) ++ (v ++ [dq]) from by simp]
    exact takeWhile_append_of_all hsp
  rw [htw, List.length_append,
    show (lcOf " value=" ++ [dq] : LC).length = 8 from by decide]
  refine btGo_peak 1 ?_ ?_ ?_
  · omega
  · show hiddenATail (lcOf "value=" ++ ([dq] ++ (v ++ [dq]))) = some v
    unfold hiddenATail
    rw [mLit_self_append]
    rw [some_bind, mQuote_dq, some_bind]
    exact capPlusMax_exact hv hvq
  · intro i h1 h2
    by_cases h7 : i ≤ 7
    · interval_cases i <;> exact hiddenATail_head_ne (by decide) _
    · have h8 : (lcOf " value=" ++ [dq] : LC).length ≤ i := by
        rw [show (lcOf " value=" ++ [dq] : LC).length = 8 from by decide]
        omega
      have h := drop_append_ge (lcOf " value=" ++ [dq]) (v ++ [dq]) i h8
      rw [show (lcOf " value=" ++ [dq] : LC).length = 8 from by decide] at h
      have hdrop : (lcOf " value=" ++ ([dq] ++ (v ++ [dq]))).drop i =
          (v ++ [dq]).drop (i - 8) := h
      rw [hdrop]
      by_cases hle : i - 8 ≤ v.length
      · rw [drop_append_le v [dq] (i - 8) hle]
        exact hiddenATail_vregion (fun c hc => hvq c (List.mem_of_mem_drop hc))
      · have hlen : (v ++ [dq]).length ≤ i - 8 := by
          simp only [List.length_append, List.length_cons, List.length_nil]
          omega
        rw [List.drop_eq_nil_of_le hlen]
        rfl

theorem hiddenA_hiddenNV {fname v : LC} (hv : v ≠ []) (hvq : ∀ c ∈ v, notQuote c = true) :
    hiddenA fname (hiddenNV fname v) = some v := by
  unfold hiddenA
  rw [show hiddenNV fname v =
    lcOf "name=" ++ ([dq] ++ (fname ++ ([dq] ++ (lcOf " value=" ++ ([dq] ++ (v ++ [dq]))))))
    from by simp [hiddenNV]]
  rw [mLit_self_append]
  rw [some_bind, mQuote_dq, some_bind, mLit_self_append]
  rw [some_bind, mQuote_dq, some_bind]
  exact hiddenA_stage v hv hvq

theorem hiddenA_append_tailB {fname : LC} (f0 : Char) (frest : LC)
    (hfn : fname = f0 :: frest) (hf0 : ¬ f0 = ' ')
    (w : LC) (hw : ∀ c ∈ w, notQuote c = true) :
    hiddenA fname (w ++ tailB fname) = none := by
  unfold hiddenA
  cases hm : mLit (lcOf "name=") (w ++ tailB fname) with
  | none => rfl
  | some r =>
    rcases mLit_append_split hm with ⟨w2, hw2, hr⟩ | ⟨x, l2, w1, hl, hww, hm2⟩
    · rw [some_bind]
      subst hr
      cases w2 with
      | nil =>
        rw [show (([] : LC) ++ tailB fname) =
          [dq] ++ (lcOf " name=" ++ ([dq] ++ (fname ++ [dq]))) from by simp [tailB]]
        rw [mQuote_dq, some_bind]
        rw [show mLit fname (lcOf " name=" ++ ([dq] ++ (fname ++ [dq]))) = none from by
          rw [hfn, show (lcOf " name=" ++ ([dq] ++ ((f0 :: frest) ++ [dq])) : LC) =
            ' ' :: (lcOf "name=" ++ ([dq] ++ ((f0 :: frest) ++ [dq]))) from rfl,
            mLit, if_neg (fun hh => hf0 hh.symm)]]
        rfl
      | cons c2 w2x =>
        have hc2 : notQuote c2 = true :=
          hw c2 (hw2 ▸ List.mem_append_right _ (List.mem_cons_self c2 w2x))
        have hcond : ¬ ((c2 = dq || c2 = sq) = true) := by
          intro hcc
          rw [notQuote, hcc] at hc2
          exact Bool.noConfusion hc2
        rw [show ((c2 :: w2x) ++ tailB fname : LC) = c2 :: (w2x ++ tailB fname) from rfl,
          mQuote, if_neg hcond]
        rfl
    · exfalso
      have hx : dq = x := mLit_cons_head
        (show mLit (x :: l2) (dq :: (lcOf " name=" ++ ([dq] ++ (fname ++ [dq])))) = some r
          from hm2)
      have hmem : x ∈ (lcOf "name=" : LC) :=
        hl ▸ List.mem_append_right w1 (List.mem_cons_self x l2)
      rw [← hx] at hmem
      exact absurd hmem (by decide)

theorem reSearch_hiddenA_vtail {fname : LC} (f0 : Char) (frest : LC)
    (hfn : fname = f0 :: frest) (hf0 : ¬ f0 = ' ')
    (hbase : reSearch (hiddenA fname) (tailB fname) = none) :
    ∀ v : LC, (∀ c ∈ v, notQuote c = true) →
      reSearch (hiddenA fname) (v ++ tailB fname) = none := by
  intro v
  induction v with
  | nil => intro _; simpa using hbase
  | cons c vx ih =>
    intro hvq
    have happ : hiddenA fname (c :: (vx ++ tailB fname)) = none :=
      hiddenA_append_tailB f0 frest hfn hf0 (c :: vx) hvq
    show reSearch (hiddenA fname) (c :: (vx ++ tailB fname)) = none
    rw [reSearch, happ]
    exact ih (fun d hd => hvq d (List.mem_cons_of_mem c hd))

theorem reSearch_hiddenA_hiddenVN {fname : LC} (f0 : Char) (frest : LC)
    (hfn : fname = f0 :: frest) (hf0 : ¬ f0 = ' ')
    (hbase : reSearch (hiddenA fname) (tailB fname) = none)
    (v : LC) (hvq : ∀ c ∈ v, notQuote c = true) :
    reSearch (hiddenA fname) (hiddenVN fname v) = none := by
  have hpre : ∀ u : LC, u <:+ (lcOf "value=" ++ [dq] : LC) → u ≠ [] →
      hiddenA fname (u ++ (v ++ tailB fname)) = none := by
    intro u hu hne
    have hmem : u ∈ (lcOf "value=" ++ [dq] : LC).tails := (List.mem_tails _ _).2 hu
    have hh : ∀ u2 ∈ (lcOf "value=" ++ [dq] : LC).tails, u2 ≠ [] →
        ¬ u2.headD ' ' = 'n' := by decide
    cases u with
    | nil => exact absurd rfl hne
    | cons c X =>
      exact hiddenA_head_ne fname (by simpa using hh _ hmem (by simp)) _
  have h2 : reSearch (hiddenA fname) ((lcOf "value=" ++ [dq]) ++ (v ++ tailB fname)) =
      reSearch (hiddenA fname) (v ++ tailB fname) := reSearch_append_none hpre
  calc reSearch (hiddenA fname) (hiddenVN fname v)
      = reSearch (hiddenA fname) ((lcOf "value=" ++ [dq]) ++ (v ++ tailB fname)) := by
        rw [show hiddenVN fname v = (lcOf "value=" ++ [dq]) ++ (v ++ tailB fname) from by
          simp [hiddenVN, tailB]]
    _ = reSearch (hiddenA fname) (v ++ tailB fname) := h2
    _ = none := reSearch_hiddenA_vtail f0 frest hfn hf0 hbase v hvq

theorem hiddenB_hiddenVN {fname : LC}
    (hinner : ∀ cap : LC, hiddenBTail fname cap (tailB fname) = some cap) :
    ∀ (v : LC), v ≠ [] → (∀ c ∈ v, notQuote c = true) →
      hiddenB fname (hiddenVN fname v) = some v := by
  intro v hv hvq
  cases v with
  | nil => exact absurd rfl hv
  | cons c0 vx =>
    unfold hiddenB
    rw [show hiddenVN fname (c0 :: vx) =
      lcOf "value=" ++ ([dq] ++ ((c0 :: vx) ++ tailB fname)) from by
        simp [hiddenVN, tailB]]
    rw [mLit_self_append]
    rw [some_bind, mQuote_dq, some_bind]
    rw [show ((c0 :: vx) ++ tailB fname : LC) = c0 :: (vx ++ tailB fname) from rfl]
    rw [btCapPlus]
    rw [if_pos (hvq c0 (List.mem_cons_self c0 vx))]
    have htw : (vx ++ tailB fname).takeWhile notQuote = vx := by
      rw [takeWhile_append_of_all (fun c hc => hvq c (List.mem_cons_of_mem c0 hc)),
        show (tailB fname).takeWhile notQuote = [] from takeWhile_cons_false (by decide),
        List.append_nil]
    rw [htw]
    cases vx with
    | nil => exact hinner [c0]
    | cons c1 vy =>
      rw [List.length_cons, btCapGo]
      have htake : ((c1 :: vy) ++ tailB fname).take (vy.length + 1) = c1 :: vy :=
        List.take_left (c1 :: vy) (tailB fname)
      have hdropt : ((c1 :: vy) ++ tailB fname).drop (vy.length + 1) = tailB fname :=
        List.drop_left (c1 :: vy) (tailB fname)
      rw [htake, hdropt]
      simp only [hinner]

theorem extractHidden_NV {fname v : LC} (hv : v ≠ []) (hvq : ∀ c ∈ v, notQuote c = true) :
    extractHidden fname (hiddenNV fname v) = some v := by
  unfold extractHidden
  rw [reSearch_of_head (hiddenA_hiddenNV hv hvq)]

theorem extractHidden_VN {fname : LC} (f0 : Char) (frest : LC)
    (hfn : fname = f0 :: frest) (hf0 : ¬ f0 = ' ')
    (hbase : reSearch (hiddenA fname) (tailB fname) = none)
    (hinner : ∀ cap : LC, hiddenBTail fname cap (tailB fname) = some cap)
    (v : LC) (hv : v ≠ []) (hvq : ∀ c ∈ v, notQuote c = true) :
    extractHidden fname (hiddenVN fname v) = some v := by
  unfold extractHidden
  rw [reSearch_hiddenA_hiddenVN f0 frest hfn hf0 hbase v hvq,
    reSearch_of_head (hiddenB_hiddenVN hinner v hv hvq)]

theorem mLitCI_cons_head {x : Char} {l2 s r : LC} {c : Char}
    (h : mLitCI (x :: l2) (c :: s) = some r) : c.toLower = x.toLower := by
  rw [mLitCI] at h
  by_cases hx : c.toLower = x.toLower
  · exact hx
  · rw [if_neg hx] at h
    exact absurd h (by simp)

theorem lzCap_true_eval {α : Type} {k : LC → Option α} {T : LC} {a : α}
    (hT : k T = some a) :
    ∀ v : LC, (∀ v2, v2 <:+ v → v2 ≠ [] → k (v2 ++ T) = none) →
      lzCap (fun _ => true) k (v ++ T) = some (v, a) := by
  intro v
  induction v with
  | nil =>
    intro _
    cases T with
    | nil => simp [lzCap, hT]
    | cons c t => simp [lzCap, hT]
  | cons c vx ih =>
    intro hfail
    have h0 : k ((c :: vx) ++ T) = none := hfail (c :: vx) (List.suffix_refl _) (by simp)
    show lzCap (fun _ => true) k (c :: (vx ++ T)) = some (c :: vx, a)
    rw [lzCap, show k (c :: (vx ++ T)) = none from h0,
      ih (fun v2 hv2 hne => hfail v2 (hv2.trans (List.suffix_cons c vx)) hne)]
    rfl

theorem fieldTail_row_eval (vF Y : LC) (hlt : '<' ∉ toLowerL vF) :
    fieldTail (lcOf "</td><td>" ++ (vF ++ (lcOf "</td></tr>" ++ Y))) = some vF := by
  have hstop : mLitCI (lcOf "</td>") (lcOf "</td></tr>" ++ Y) = some (lcOf "</tr>" ++ Y) := rfl
  have hfail : ∀ v2, v2 <:+ vF → v2 ≠ [] →
      mLitCI (lcOf "</td>") (v2 ++ (lcOf "</td></tr>" ++ Y)) = none := by
    intro v2 hv2 hne
    cases v2 with
    | nil => exact absurd rfl hne
    | cons c vx =>
      cases hm : mLitCI (lcOf "</td>") ((c :: vx) ++ (lcOf "</td></tr>" ++ Y)) with
      | none => rfl
      | some r =>
        exfalso
        have hcl : c.toLower = Char.toLower '<' := mLitCI_cons_head
          (show mLitCI ('<' :: lcOf "/td>") (c :: (vx ++ (lcOf "</td></tr>" ++ Y))) = some r
            from hm)
        have hcm : c ∈ vF := hv2.subset (List.mem_cons_self c vx)
        have hcc : '<' = c.toLower := by rw [hcl]; decide
        have hmem : '<' ∈ toLowerL vF := by
          rw [hcc]
          exact List.mem_map_of_mem Char.toLower hcm
        exact hlt hmem
  have hlz := lzCap_true_eval hstop vF hfail
  show (lzCap (fun _ => true) (mLitCI (lcOf "</td>"))
    (vF ++ (lcOf "</td></tr>" ++ Y))).map (fun r => r.1) = some vF
  rw [hlz]
  rfl

theorem fieldPat_context_none {label : LC} (hgt : '>' ∉ toLowerL label)
    {X : LC} (hX : occursCI label (X ++ lcOf "<tr><td>") = false) (t : LC) :
    ∀ u : LC, u <:+ (X ++ lcOf "<tr><td>") → u ≠ [] → fieldPat label (u ++ t) = none := by
  intro u hu hne
  unfold fieldPat
  cases hm : mLitCI label (u ++ t) with
  | none => rfl
  | some r =>
    exfalso
    have hci : ciStartsWith label (u ++ t) = true := mLitCI_some_ciStarts hm
    rw [ciStartsWith, List.isPrefixOf_iff_prefix] at hci
    have hsplit : toLowerL (u ++ t) = toLowerL u ++ toLowerL t := by simp [toLowerL]
    rw [hsplit] at hci
    by_cases hlen : label.length ≤ u.length
    · have hpre : toLowerL label <+: toLowerL u :=
        List.prefix_of_prefix_length_le hci (List.prefix_append _ _)
          (by simpa [toLowerL] using hlen)
      have hciu : ciStartsWith label u = true := by
        rw [ciStartsWith, List.isPrefixOf_iff_prefix]
        exact hpre
      exact no_occursCI_elim hX hu ⟨u, List.suffix_refl u, hciu⟩
    · have hpreu : toLowerL u <+: toLowerL label :=
        List.prefix_of_prefix_length_le (List.prefix_append _ _) hci
          (by simp only [toLowerL, List.length_map]; omega)
      obtain ⟨p, hp⟩ := hu
      have hp2 : p ++ u = (X ++ lcOf "<tr><td") ++ ['>'] := by
        rw [hp, show (lcOf "<tr><td>" : LC) = lcOf "<tr><td" ++ ['>'] from rfl,
          ← List.append_assoc]
      have hrev : u.reverse ++ p.reverse = '>' :: (X ++ lcOf "<tr><td").reverse := by
        rw [← List.reverse_append, hp2]
        simp
      cases hur : u.reverse with
      | nil => exact hne (by simpa using congrArg List.reverse hur)
      | cons c ur =>
        rw [hur] at hrev
        injection hrev with h1 h2
        have hcm : c ∈ u := by
          have hc2 : c ∈ u.reverse := by
            rw [hur]
            exact List.mem_cons_self c ur
          exact List.mem_reverse.1 hc2
        have hcl : Char.toLower c = '>' := by rw [h1]; decide
        have hgt2 : '>' ∈ toLowerL label := by
          apply hpreu.subset
          rw [← hcl]
          exact List.mem_map_of_mem Char.toLower hcm
        exact hgt hgt2

theorem fieldValue_row_eval (label vF X Y : LC)
    (hgt : '>' ∉ toLowerL label) (hlt : '<' ∉ toLowerL vF)
    (hX : occursCI label (X ++ lcOf "<tr><td>") = false) :
    fieldValue label (X ++ (rowOf label vF ++ Y)) = some (strip_tags vF) := by
  unfold fieldValue
  have hw : reSearch (fieldPat label)
      ((X ++ lcOf "<tr><td>") ++
        (label ++ (lcOf "</td><td>" ++ (vF ++ (lcOf "</td></tr>" ++ Y))))) =
      reSearch (fieldPat label)
        (label ++ (lcOf "</td><td>" ++ (vF ++ (lcOf "</td></tr>" ++ Y)))) :=
    reSearch_append_none (fieldPat_context_none hgt hX _)
  have hhead : fieldPat label
      (label ++ (lcOf "</td><td>" ++ (vF ++ (lcOf "</td></tr>" ++ Y)))) = some vF := by
    unfold fieldPat
    rw [mLitCI_self_append, some_bind]
    exact fieldTail_row_eval vF Y hlt
  rw [show (X ++ (rowOf label vF ++ Y) : LC) =
    (X ++ lcOf "<tr><td>") ++
      (label ++ (lcOf "</td><td>" ++ (vF ++ (lcOf "</td></tr>" ++ Y)))) from by
    simp [rowOf]]
  rw [hw, reSearch_of_head hhead]
  rfl

/-! ## CLAIM THEOREMS -/

/-- C3: for every transport call, if the request fails with a retryable
error (HTTP 429/500/502/503/504 or a low-level connection error) on the
first two attempts then the third attempt decides the outcome: a success
is returned after exactly two sleeps of 2 and 4 seconds (backoff
`2^(attempt)` with attempts counted from 1, hence non-decreasing), and a
third failure is re-raised unchanged with no synthetic wrapping. -/
theorem transport_retry_policy (oracle : Nat → Except NetErr LC) (e0 e1 : NetErr)
    (h0 : oracle 0 = .error e0) (hr0 : errRetryable e0 = true)
    (h1 : oracle 1 = .error e1) (hr1 : errRetryable e1 = true) :
    (∀ body, oracle 2 = .ok body → make_request oracle = (.ok body, [2, 4])) ∧
    (∀ e2, oracle 2 = .error e2 → make_request oracle = (.error e2, [2, 4])) := by
  have s1 : make_request oracle = mrGo oracle 2 1 [2] := by
    show mrGo oracle (2 + 1) 0 [] = _
    rw [mrGo_step_retry h0 hr0 (by norm_num [MAX_RETRIES])]
    norm_num
  have s2 : mrGo oracle 2 1 [2] = mrGo oracle 1 2 [2, 4] := by
    show mrGo oracle (1 + 1) 1 [2] = _
    rw [mrGo_step_retry h1 hr1 (by norm_num [MAX_RETRIES])]
    norm_num
  constructor
  · intro body hb
    rw [s1, s2]
    exact mrGo_step_ok hb
  · intro e2 hb
    rw [s1, s2]
    exact mrGo_step_raise hb (by norm_num [MAX_RETRIES])

/-- Witness for C3 at a concrete transport: two HTTP 503 failures then a
success; the call succeeds with sleeps `[2, 4]`. -/
theorem transport_retry_policy_witness :
    make_request (fun n => if n == 0 || n == 1 then .error (.http 503) else .ok (lcOf "ok"))
      = (.ok (lcOf "ok"), [2, 4]) :=
  (transport_retry_policy _ (.http 503) (.http 503) rfl (by decide) rfl (by decide)).1
    _ rfl

/-- C7: bid result-row shape dispatch.  A data row with the rich cell
count (12 or more cells) yields a record populating bid_number,
organization, buyer, description, open_date and status; a row with
exactly the degraded minimum of 6 cells populates only bid_number,
description, organization and open_date and nothing else; a row with
fewer than 6 cells yields no record. -/
theorem bid_row_shape_dispatch :
    (∀ (c0 c1 c2 c3 c4 c5 c6 c7 c8 c9 c10 c11 : LC) (rest : List LC),
      bidRecordOfCells (c0 :: c1 :: c2 :: c3 :: c4 :: c5 :: c6 :: c7 :: c8 :: c9 :: c10 :: c11 :: rest) =
        some [(lcOf "bid_number", strip_tags c0),
              (lcOf "organization", strip_tags c2),
              (lcOf "buyer", strip_tags c5),
              (lcOf "description", strip_tags c6),
              (lcOf "open_date", strip_tags c7),
              (lcOf "status", strip_tags c10)]) ∧
    (∀ (c0 c1 c2 c3 c4 c5 : LC),
      bidRecordOfCells [c0, c1, c2, c3, c4, c5] =
        some [(lcOf "bid_number", strip_tags c0),
              (lcOf "description", strip_tags c1),
              (lcOf "organization", strip_tags c2),
              (lcOf "open_date", strip_tags c4)]) ∧
    (∀ cells : List LC, cells.length < 6 → bidRecordOfCells cells = none) := by
  refine ⟨?_, ?_, ?_⟩
  · intro c0 c1 c2 c3 c4 c5 c6 c7 c8 c9 c10 c11 rest
    unfold bidRecordOfCells
    split
    · rename_i h
      exfalso
      simp only [List.length_cons] at h
      omega
    · split
      · rfl
      · rename_i h2
        exfalso
        simp only [List.length_cons] at h2
        omega
  · intro c0 c1 c2 c3 c4 c5
    rfl
  · intro cells h
    unfold bidRecordOfCells
    rw [if_pos h]

/-- Witness for C7: a row of five cells is dropped. -/
theorem bid_row_shape_dispatch_witness :
    bidRecordOfCells [lcOf "a", lcOf "b", lcOf "c", lcOf "d", lcOf "e"] = none :=
  bid_row_shape_dispatch.2.2 _ (by decide)

/-- C2: when the fetched search page yields no view-state token, the
orchestration fails immediately with the protocol error (the source's
`RuntimeError`), issues no reset or search POST, and the protocol error is
distinct from every transport error by construction. -/
theorem missing_viewstate_protocol (net : Net) (fid btn : LC) (ffs : Dict)
    (rfi : Option LC) (page : LC)
    (hp : net.page = .ok page)
    (hvs : (extract_tokens page).viewState = none) :
    ajax_search net fid btn ffs rfi =
      ⟨.error (.protocol (lcOf "Could not extract ViewState from search page")), []⟩ ∧
    (∀ e, ClientError.protocol (lcOf "Could not extract ViewState from search page") ≠
      ClientError.transport e) := by
  constructor
  · unfold ajax_search
    rw [hp]
    simp only [hvs]
  · intro e h
    exact ClientError.noConfusion h

/-- Witness for C2: a page with no hidden view-state field. -/
theorem missing_viewstate_protocol_witness :
    ajax_search ⟨.ok (lcOf "<html><body>maintenance</body></html>"), fun _ => []⟩
        (lcOf "bidSearchForm") (lcOf "bidSearchForm:btnBidSearch") [] none =
      ⟨.error (.protocol (lcOf "Could not extract ViewState from search page")), []⟩ :=
  (missing_viewstate_protocol _ _ _ _ _ _ rfl (by decide)).1

/-- C4: for every page body, form id and input text, dropdown resolution
returns the value of the first option (in document order) whose
whitespace-trimmed label matches the input case-insensitively exactly;
otherwise the value of the first option whose label contains the input
case-insensitively; otherwise the original input text verbatim.  The
embedding is a total function, matching the never-raises contract. -/
theorem dropdown_resolution_policy (page fid org : LC) :
    resolve_org_code page fid org =
      (match (pageOptions page fid).find?
          (fun vt => toLowerL org == toLowerL (stripWS vt.2)) with
       | some vt => vt.1
       | none =>
         match (pageOptions page fid).find?
             (fun vt => isSubstr (toLowerL org) (toLowerL (stripWS vt.2))) with
         | some vt => vt.1
         | none => org) := by
  unfold resolve_org_code resolveSelectField pageOptions
  cases hsel : reSearch (selectPat (fid ++ lcOf ":organization")) page with
  | none => simp [List.find?]
  | some inner =>
    dsimp only
    rw [resolveLoopExact_eq, resolveLoopSub_eq]
    cases (optionsOf inner).find? (fun vt => toLowerL org == toLowerL (stripWS vt.2)) with
    | some vt => rfl
    | none =>
      cases (optionsOf inner).find?
          (fun vt => isSubstr (toLowerL org) (toLowerL (stripWS vt.2))) with
      | some vt => rfl
      | none => rfl

/-- C1: for every fetched search page carrying view-state `VS1` and a
reset-action id prefixed by the form id, the reset POST carries `VS1`,
and the search POST carries the view-state of the reset response's
partial-update envelope when that envelope contains one, and still `VS1`
otherwise.  The form-field mapping is assumed not to bind the view-state
key itself, as no caller does. -/
theorem ajax_reset_viewstate_rotation (net : Net) (fid btn : LC) (ffs : Dict)
    (rfi : Option LC) (page vs1 rid : LC)
    (hp : net.page = .ok page)
    (hvs : (extract_tokens page).viewState = some vs1)
    (hrb : find_reset_button page fid = some rid)
    (hff : dLookup ffs vsName = none) :
    ∃ rd sd res, ajax_search net fid btn ffs rfi = ⟨.ok res, [rd, sd]⟩ ∧
      dLookup rd vsName = some vs1 ∧
      dLookup sd vsName = some ((extract_updated_vs (net.post rd)).getD vs1) := by
  have hff2 : dLookup (match dLookup ffs (fid ++ lcOf ":organization") with
      | some t => dSet ffs (fid ++ lcOf ":organization") (resolve_org_code page fid t)
      | none => ffs) vsName = none := by
    cases dLookup ffs (fid ++ lcOf ":organization") with
    | some t =>
      rw [dLookup_dSet_ne _ _ _ _ (orgField_ne_vsName fid)]
      exact hff
    | none => exact hff
  unfold ajax_search
  rw [hp]
  simp only [hvs, hrb]
  exact ⟨_, _, _, rfl, resetDataOf_vs _ _ _ _, searchDataOf_vs _ _ _ _ _ _ hff2⟩

/-- Witness for C1: the concrete page `wPage1` (view-state `VS1`, reset id
`bidSearchForm:j_idt55`) against a network whose reset response carries no
view-state update, so the search POST still carries `VS1`. -/
theorem ajax_reset_viewstate_rotation_witness :
    ∃ rd sd res,
      ajax_search ⟨.ok wPage1, fun _ => lcOf "<x/>"⟩ (lcOf "bidSearchForm")
          (lcOf "bidSearchForm:btnBidSearch") [] none = ⟨.ok res, [rd, sd]⟩ ∧
      dLookup rd vsName = some (lcOf "VS1") ∧
      dLookup sd vsName =
        some ((extract_updated_vs ((fun _ => lcOf "<x/>") rd)).getD (lcOf "VS1")) :=
  ajax_reset_viewstate_rotation ⟨.ok wPage1, fun _ => lcOf "<x/>"⟩ (lcOf "bidSearchForm")
    (lcOf "bidSearchForm:btnBidSearch") [] none wPage1 (lcOf "VS1")
    (lcOf "bidSearchForm:j_idt55") rfl (by decide) (by decide) rfl

/-- C6 counterexample: the orchestrator does not resolve vendor fields.
With a page whose `contractBlanketSearchForm:vendorName` select list maps
the label `Acme Corporation` to `V123`, the Dropdown Resolver applied to
that field resolves the typed text to `V123`, yet the single search POST
issued by `ajax_search` still carries the raw text. -/
theorem vendor_field_not_resolved_cx :
    resolveSelectField c6Page (lcOf "contractBlanketSearchForm:vendorName")
        (lcOf "acme corporation") = lcOf "V123" ∧
    lcOf "V123" ≠ lcOf "acme corporation" ∧
    (ajax_search ⟨.ok c6Page, fun _ => []⟩ (lcOf "contractBlanketSearchForm")
        (lcOf "contractBlanketSearchForm:btnPoSearch")
        [(lcOf "contractBlanketSearchForm:vendorName", lcOf "acme corporation")]
        (some (lcOf "contractBlanketSearchResultsForm"))).posts.length = 1 ∧
    dLookup ((ajax_search ⟨.ok c6Page, fun _ => []⟩ (lcOf "contractBlanketSearchForm")
        (lcOf "contractBlanketSearchForm:btnPoSearch")
        [(lcOf "contractBlanketSearchForm:vendorName", lcOf "acme corporation")]
        (some (lcOf "contractBlanketSearchResultsForm"))).posts.getD 0 [])
      (lcOf "contractBlanketSearchForm:vendorName") = some (lcOf "acme corporation") := by
  refine ⟨by decide, by decide, by decide, by decide⟩

/-- C6 amended: before submitting the search, the orchestrator resolves
the organization field (`FORMID:organization`) when it is present in the
request's field mapping, replacing the raw text with the resolved code in
the submitted search POST; other fields (including vendor-name fields) are
submitted verbatim. -/
theorem org_field_resolution (net : Net) (fid btn : LC) (ffs : Dict) (rfi : Option LC)
    (page vs1 org : LC)
    (hp : net.page = .ok page)
    (hvs : (extract_tokens page).viewState = some vs1)
    (hnd : (dKeys ffs).Nodup)
    (horg : dLookup ffs (fid ++ lcOf ":organization") = some org) :
    ∃ pre sd res, ajax_search net fid btn ffs rfi = ⟨.ok res, pre ++ [sd]⟩ ∧
      dLookup sd (fid ++ lcOf ":organization") =
        some (resolve_org_code page fid org) := by
  have hnd2 : (dKeys (dSet ffs (fid ++ lcOf ":organization")
      (resolve_org_code page fid org))).Nodup := dKeys_dSet_nodup _ _ _ hnd
  have h2 : dLookup (dSet ffs (fid ++ lcOf ":organization")
      (resolve_org_code page fid org)) (fid ++ lcOf ":organization") =
      some (resolve_org_code page fid org) := dLookup_dSet_self _ _ _
  unfold ajax_search
  rw [hp]
  simp only [hvs, horg]
  cases hrb : find_reset_button page fid with
  | some rid =>
    exact ⟨[resetDataOf fid rid vs1 (extract_tokens page).csrf], _, _, rfl,
      searchDataOf_lookup_ffs _ _ _ _ _ _ _ _ hnd2 h2⟩
  | none =>
    exact ⟨[], _, _, rfl, searchDataOf_lookup_ffs _ _ _ _ _ _ _ _ hnd2 h2⟩

/-- Witness for the amended C6: against `wPage1` (which has no select
list) the organization field is submitted as the resolver's fallback, the
raw text itself. -/
theorem org_field_resolution_witness :
    ∃ pre sd res,
      ajax_search ⟨.ok wPage1, fun _ => []⟩ (lcOf "bidSearchForm")
          (lcOf "bidSearchForm:btnBidSearch")
          [(lcOf "bidSearchForm:organization", lcOf "MBTA")] none =
        ⟨.ok res, pre ++ [sd]⟩ ∧
      dLookup sd (lcOf "bidSearchForm:organization") =
        some (resolve_org_code wPage1 (lcOf "bidSearchForm") (lcOf "MBTA")) :=
  org_field_resolution ⟨.ok wPage1, fun _ => []⟩ (lcOf "bidSearchForm")
    (lcOf "bidSearchForm:btnBidSearch")
    [(lcOf "bidSearchForm:organization", lcOf "MBTA")] none wPage1 (lcOf "VS1")
    (lcOf "MBTA") rfl (by decide) (by decide) (by decide)

/-- C10 counterexample: a negative limit breaks the claim as stated.
With two parsed records and `limit = -1`, the Python slice `results[:-1]`
returns one record, which is not "at most `limit` records", nor the first
`limit` elements. -/
theorem search_limit_negative_cx :
    search_bids ⟨.ok wPage2, fun _ => wRowsXml⟩ { limit := some (-1) } =
      .ok [[(lcOf "bid_number", lcOf "B1"), (lcOf "description", lcOf "D1"),
            (lcOf "organization", lcOf "O1"), (lcOf "open_date", lcOf "5/1/25")]] ∧
    effLimit (some (-1)) = -1 ∧ ¬ ((1 : Int) ≤ effLimit (some (-1))) := by
  refine ⟨rfl, by decide, by decide⟩

/-- C10 amended: every search operation (bids, blankets, vendors) whose
effective limit (default 100 when the limit argument is absent or falsy)
is nonnegative returns exactly the first `limit` elements of the parsed
results after the exclude filter (records whose lowercased JSON
serialization contains the exclude term are removed, when a non-empty
term is given), hence at most `limit` records.  A negative limit instead
drops the trailing records (Python slice semantics). -/
theorem search_limit_exclude (net : Net) (args : SearchArgs)
    (hl : 0 ≤ effLimit args.limit) :
    (∀ r, (ajax_search net (lcOf "bidSearchForm") (lcOf "bidSearchForm:btnBidSearch")
        (bidFormFields args) (some (lcOf "bidSearchResultsForm"))).result = .ok r →
      search_bids net args =
        .ok ((excludeFilter args.exclude (parse_bid_search_results r)).take
          (effLimit args.limit).toNat) ∧
      ((excludeFilter args.exclude (parse_bid_search_results r)).take
          (effLimit args.limit).toNat).length ≤ (effLimit args.limit).toNat) ∧
    (∀ r, (ajax_search net (lcOf "contractBlanketSearchForm")
        (lcOf "contractBlanketSearchForm:btnPoSearch")
        (blanketFormFields args) (some (lcOf "contractBlanketSearchResultsForm"))).result = .ok r →
      search_blankets net args =
        .ok ((excludeFilter args.exclude (parse_blanket_search_results r)).take
          (effLimit args.limit).toNat) ∧
      ((excludeFilter args.exclude (parse_blanket_search_results r)).take
          (effLimit args.limit).toNat).length ≤ (effLimit args.limit).toNat) ∧
    (∀ r, (ajax_search net (lcOf "vendorSearchForm")
        (lcOf "vendorSearchForm:btnVendorSearch")
        (vendorFormFields args) (some (lcOf "vendorSearchResultsForm"))).result = .ok r →
      search_vendors net args =
        .ok ((excludeFilter args.exclude (parse_vendor_search_results r)).take
          (effLimit args.limit).toNat) ∧
      ((excludeFilter args.exclude (parse_vendor_search_results r)).take
          (effLimit args.limit).toNat).length ≤ (effLimit args.limit).toNat) := by
  refine ⟨?_, ?_, ?_⟩
  · intro r hr
    refine ⟨?_, List.length_take_le _ _⟩
    simp only [search_bids, hr, pySliceTo]
    rw [if_pos hl]
  · intro r hr
    refine ⟨?_, List.length_take_le _ _⟩
    simp only [search_blankets, hr, pySliceTo]
    rw [if_pos hl]
  · intro r hr
    refine ⟨?_, List.length_take_le _ _⟩
    simp only [search_vendors, hr, pySliceTo]
    rw [if_pos hl]

/-- C9: total extractors and the degenerate-input policy.  Every
extractor of the embedding is a total function (it never raises by
construction); on markup carrying none of the structural markers — no
table row opener for the list extractors, no cell closer and no download
anchor for the detail extractors — the list extractors return the empty
sequence and the detail extractors the empty mapping (no fields, no
attachments, no items, no codes). -/
theorem extractors_degenerate_empty :
    (∀ s : LC, occursCI (lcOf "<tr") s = false →
      parse_bid_search_results s = [] ∧ parse_blanket_search_results s = [] ∧
      parse_vendor_search_results s = []) ∧
    (∀ s : LC, occursCI (lcOf "</td>") s = false →
      occursCI (lcOf "downloadFile(") s = false →
      parse_bid_detail s = ⟨[], [], []⟩ ∧ parse_po_detail s = ⟨[], [], []⟩) := by
  constructor
  · intro s h
    have hrb : rowBlocks s = [] := rowBlocks_empty h
    refine ⟨?_, ?_, ?_⟩
    · unfold parse_bid_search_results
      rw [hrb]
      rfl
    · unfold parse_blanket_search_results
      rw [hrb]
      rfl
    · unfold parse_vendor_search_results
      rw [hrb]
      rfl
  · intro s h1 h2
    have hattn : ∀ u, u <:+ s → attachPat u = none := by
      intro u hu
      cases ha : attachPat u with
      | none => rfl
      | some p => exact absurd (no_occursCI_elim h2 hu (attachPat_dl ha)) not_false
    have hatt : attachmentsOf s = [] := by
      unfold attachmentsOf
      rw [reFindAll_none hattn]
      rfl
    have hitems : itemsOf s = [] := by
      unfold itemsOf
      rw [reFindAll_none ?hin]
      · rfl
      case hin =>
        intro u hu
        cases ha : itemPat u with
        | none => rfl
        | some p => exact absurd (no_occursCI_elim h1 hu (itemPat_td ha)) not_false
    have hunspsc : reFindAll poUnspscPat s = [] := by
      apply reFindAll_none
      intro u hu
      cases ha : poUnspscPat u with
      | none => rfl
      | some p => exact absurd (no_occursCI_elim h1 hu (poUnspscPat_td ha)) not_false
    constructor
    · unfold parse_bid_detail
      rw [mkFields_eq_nil (bidSpecs_need_td h1), hatt, hitems]
    · unfold parse_po_detail
      rw [mkFields_eq_nil (poSpecs_need_td h1), hunspsc, hatt]
      rfl

/-- Witness for C9: plain prose with no markup yields empty results from
both a list extractor and a detail extractor. -/
theorem extractors_degenerate_empty_witness :
    parse_bid_search_results (lcOf "Service unavailable, try later") = [] ∧
    parse_bid_detail (lcOf "Service unavailable, try later") = ⟨[], [], []⟩ :=
  ⟨(extractors_degenerate_empty.1 _ (by decide)).1,
   (extractors_degenerate_empty.2 _ (by decide) (by decide)).1⟩

/-- Witness for the amended C10: the default arguments (limit 100, no
exclude term) return the parsed rows of a concrete two-row response. -/
theorem search_limit_exclude_witness :
    search_bids ⟨.ok wPage2, fun _ => wRowsXml⟩ {} =
      .ok ((excludeFilter none
        (parse_bid_search_results (parse_ajax_response wRowsXml))).take
          (effLimit (some 100)).toNat) :=
  ((search_limit_exclude ⟨.ok wPage2, fun _ => wRowsXml⟩ {} (by decide)).1 _ rfl).1

/-- C5: token extraction is attribute-order insensitive.  For every token
value `v` (made of characters other than the quote delimiters, as any
value carried by a quoted HTML attribute is), the page declaring the
hidden field with `name` before `value` and the page declaring it with
`value` before `name` yield the same extracted view-state, and likewise
the same extracted CSRF token (source lines 160-181: for each field name
the name-first pattern is tried, then the value-first pattern). -/
theorem token_extraction_order_insensitive (v : LC)
    (hvq : ∀ c ∈ v, notQuote c = true) :
    (extract_tokens (hiddenNV vsName v)).viewState =
      (extract_tokens (hiddenVN vsName v)).viewState ∧
    (extract_tokens (hiddenNV csrfName v)).csrf =
      (extract_tokens (hiddenVN csrfName v)).csrf := by
  constructor
  · show extractHidden vsName (hiddenNV vsName v) = extractHidden vsName (hiddenVN vsName v)
    cases v with
    | nil => decide
    | cons c0 vx =>
      rw [extractHidden_NV (by simp) hvq,
        extractHidden_VN 'j' (lcOf "avax.faces.ViewState")
          (show vsName = 'j' :: lcOf "avax.faces.ViewState" from rfl)
          (by decide) (by decide) (fun cap => rfl) (c0 :: vx) (by simp) hvq]
  · show extractHidden csrfName (hiddenNV csrfName v) = extractHidden csrfName (hiddenVN csrfName v)
    cases v with
    | nil => decide
    | cons c0 vx =>
      rw [extractHidden_NV (by simp) hvq,
        extractHidden_VN '_' (lcOf "csrf")
          (show csrfName = '_' :: lcOf "csrf" from rfl)
          (by decide) (by decide) (fun cap => rfl) (c0 :: vx) (by simp) hvq]

/-- C8 counterexample: detail extraction is NOT per-field independent.
In `c8BodyA` the `location` field's labeled region (`c8R`, the exact span
its pattern matches) sits between the two halves of an `Organization:`
label, so the `organization` entry is absent; removing that region
(`c8BodyB`) joins the halves and the `organization` entry appears.  Thus
removing one recognized field's labeled region changes another field's
entry. -/
theorem detail_field_independence_cx :
    c8BodyA = c8P ++ (c8R ++ c8S) ∧
    c8BodyB = c8P ++ c8S ∧
    reSearch (fieldPat (lcOf "Location:")) c8R = some (lcOf "L1") ∧
    dLookup (parse_bid_detail c8BodyA).fields (lcOf "location") = some (lcOf "L1") ∧
    dLookup (parse_bid_detail c8BodyB).fields (lcOf "location") = none ∧
    dLookup (parse_bid_detail c8BodyA).fields (lcOf "organization") = none ∧
    dLookup (parse_bid_detail c8BodyB).fields (lcOf "organization") = some (lcOf "DCR") := by
  refine ⟨by simp [c8BodyA], rfl, ?_, ?_, ?_, ?_, ?_⟩ <;> decide

/-- C8 (amended): per-field extraction depends only on the field's own
labeled row, PROVIDED the surrounding mutation neither contains nor
completes an occurrence of the label.  For every label (without `>`, as
all recognized labels are) and cell value (without `<`, so the value cell
is not cut short), any two contexts that do not carry a case-insensitive
occurrence of the label up to the row opening yield the same extracted
entry for that field: the stripped cell value. -/
theorem detail_field_mutation_stable (label vF X Y X2 Y2 : LC)
    (hgt : '>' ∉ toLowerL label) (hlt : '<' ∉ toLowerL vF)
    (hX : occursCI label (X ++ lcOf "<tr><td>") = false)
    (hX2 : occursCI label (X2 ++ lcOf "<tr><td>") = false) :
    fieldValue label (X ++ (rowOf label vF ++ Y)) = some (strip_tags vF) ∧
    fieldValue label (X2 ++ (rowOf label vF ++ Y2)) =
      fieldValue label (X ++ (rowOf label vF ++ Y)) := by
  have h1 := fieldValue_row_eval label vF X Y hgt hlt hX
  have h2 := fieldValue_row_eval label vF X2 Y2 hgt hlt hX2
  exact ⟨h1, h2.trans h1.symm⟩

/-- Witness for the amended C8: the `Location:` field's entry is `L1` and
is unchanged across two unrelated contexts. -/
theorem detail_field_mutation_stable_witness :
    fieldValue (lcOf "Location:")
      (lcOf "<p>x</p>" ++ (rowOf (lcOf "Location:") (lcOf "L1") ++ lcOf "<i>z</i>")) =
      some (strip_tags (lcOf "L1")) ∧
    fieldValue (lcOf "Location:")
      (lcOf "<div>" ++ (rowOf (lcOf "Location:") (lcOf "L1") ++ [])) =
      fieldValue (lcOf "Location:")
        (lcOf "<p>x</p>" ++ (rowOf (lcOf "Location:") (lcOf "L1") ++ lcOf "<i>z</i>")) :=
  detail_field_mutation_stable (lcOf "Location:") (lcOf "L1")
    (lcOf "<p>x</p>") (lcOf "<i>z</i>") (lcOf "<div>") []
    (by decide) (by decide) (by decide) (by decide)

/-- Witness for C5 at the concrete token value `VS1`. -/
theorem token_extraction_order_insensitive_witness :
    (extract_tokens (hiddenNV vsName (lcOf "VS1"))).viewState =
      (extract_tokens (hiddenVN vsName (lcOf "VS1"))).viewState ∧
    (extract_tokens (hiddenNV csrfName (lcOf "VS1"))).csrf =
      (extract_tokens (hiddenVN csrfName (lcOf "VS1"))).csrf :=
  token_extraction_order_insensitive (lcOf "VS1") (by decide)

end Commbuys
